import Mathlib

/-!
# Verification of the csv2ofx converter (`csv2ofx.py`)

A shallow embedding of the CSV-to-OFX conversion script, together with
theorems checking its natural-language specification.

Modelling conventions:

* Python strings are Lean `String`s; the embedding works on `String.data`
  (lists of characters) where inductive reasoning is needed.
* The input file is modelled as `Option (List String)`: `none` stands for an
  unreadable file (`FileNotFoundError`), `some lines` for the decoded list of
  physical lines (terminators and the BOM already removed by decoding, as
  `utf-8-sig` plus `str.strip` do in the source).
* Python `float` amounts are modelled as exact rationals (`ℚ`).  The source
  only parses decimal literals, negates, and compares against zero; on those
  operations the rational model and IEEE doubles agree in sign for all
  realistic statement amounts.  `float` inputs such as `inf`/`nan` or
  underscore separators are modelled as parse failures.
* The MD5 hex digest used for the FITID is kept abstract: the whole analysis
  is parameterised by `md5hex : String → String`, and claims about the
  identifier are stated relative to that parameter.
* Exceptions are explicit: the per-row worker returns `Except PyErr`, where
  `PyErr.caught` distinguishes the exception classes listed in the source's
  `except (ValueError, IndexError, KeyError)` clause from those that escape
  the handler (`TypeError`, `AttributeError`).
-/

/-! ## Python-style character and string primitives -/

/-- Python whitespace (the ASCII part), as used by `str.strip` and
`str.split()` in the source. -/
def pySpace (c : Char) : Bool :=
  c = ' ' || c = '\t' || c = '\n' || c = '\r' || c = '\x0b' || c = '\x0c'

/-- `str.strip()` on a character list: drop whitespace from both ends. -/
def pyStripList (l : List Char) : List Char :=
  ((l.dropWhile pySpace).reverse.dropWhile pySpace).reverse

/-- `str.strip()` on a `String`. -/
def pyStrip (s : String) : String :=
  ⟨pyStripList s.data⟩

/-- `str.lower()` on a character: ASCII letters plus the uppercase accented
letters of the Portuguese header vocabulary.  (Python case-folds all of
Unicode; the synonym table only needs this fragment.) -/
def pyLowerChar (c : Char) : Char :=
  if 'A' ≤ c ∧ c ≤ 'Z' then Char.ofNat (c.toNat + 32)
  else if c = 'À' then 'à'
  else if c = 'Á' then 'á'
  else if c = 'Â' then 'â'
  else if c = 'Ã' then 'ã'
  else if c = 'Ç' then 'ç'
  else if c = 'É' then 'é'
  else if c = 'Ê' then 'ê'
  else if c = 'Í' then 'í'
  else if c = 'Ó' then 'ó'
  else if c = 'Ô' then 'ô'
  else if c = 'Õ' then 'õ'
  else if c = 'Ú' then 'ú'
  else c

/-- `str.lower()` on a `String`. -/
def pyLower (s : String) : String :=
  ⟨s.data.map pyLowerChar⟩

/-- `str.count(sep)` for a single-character separator. -/
def pyCount (s : String) (c : Char) : Nat :=
  s.data.count c

/-- `str.replace(a, b)` for single characters (the source replaces
a comma with a dot, and an asterisk with a space). -/
def pyReplace (s : String) (a b : Char) : String :=
  ⟨s.data.map (fun c => if c = a then b else c)⟩

/-- `str.split(sep)` on a character list, Python semantics: the result is
always nonempty, and splitting the empty string yields `[[]]`. -/
def splitCh (sep : Char) : List Char → List (List Char)
  | [] => [[]]
  | c :: rest =>
    if c = sep then [] :: splitCh sep rest
    else
      match splitCh sep rest with
      | [] => [[c]]
      | r :: rs => (c :: r) :: rs

/-- `str.split(sep)` on a `String`. -/
def pySplit (s : String) (sep : Char) : List String :=
  (splitCh sep s.data).map (fun l => ⟨l⟩)

/-- `sep.join(parts)` for a single-character separator. -/
def pyJoin (sep : Char) (parts : List String) : String :=
  ⟨List.intercalate [sep] (parts.map String.data)⟩

/-! ## Line repair preprocessor (`preprocessar_csv_corrigindo_linhas`) -/

/-- One iteration of the repair loop of `preprocessar_csv_corrigindo_linhas`
(source lines 87–101): blank lines are skipped; a stripped line with fewer
than two `;` is "broken" and is merged into the second-to-last field of the
last accepted line (or dropped when no line has been accepted yet); any other
line is accepted as it stands. -/
def passo (acc : List String) (linha : String) : List String :=
  let linha_limpa := pyStrip linha
  if linha_limpa = "" then acc
  else if pyCount linha_limpa ';' < 2 then
    match acc with
    | [] => acc
    | _ :: _ =>
      let ultima := acc.getLastD ""
      let partes := pySplit ultima ';'
      let n := partes.length
      let novo := partes.set (n - 2)
        (partes.getD (n - 2) "" ++ " " ++ (pySplit linha_limpa ';').headD "")
      acc.dropLast ++ [pyJoin ';' novo]
  else acc ++ [linha_limpa]

/-- Diagnostic printed by the preprocessor for an empty file. -/
def msg_arquivo_vazio : String :=
  "Erro: Arquivo CSV esta vazio."

/-- `preprocessar_csv_corrigindo_linhas` (source lines 58–107).  The input is
`none` for an unreadable file, otherwise the list of physical lines.  The
result pairs the printed diagnostics with the returned value: `none` models
the Python `None, None` return, `some (cabecalho, linhas)` the normal
return. -/
def preprocessar_csv_corrigindo_linhas (conteudo : Option (List String)) :
    List String × Option (String × List String) :=
  match conteudo with
  | none => ([], none)
  | some [] => ([msg_arquivo_vazio], none)
  | some (l0 :: resto) => ([], some (pyStrip l0, resto.foldl passo []))

/-- The guard the caller (`__main__`, source line 421) applies to the
preprocessor's result: both the header and the repaired-line list must be
truthy for conversion to proceed. -/
def caller_aceita (r : Option (String × List String)) : Bool :=
  match r with
  | none => false
  | some (cabecalho, linhas) => cabecalho ≠ "" && linhas ≠ []

/-! ## Dates (`datetime.strptime(s, "%d/%m/%Y")`) -/

/-- The calendar date stored in a transaction (`datetime` at midnight; only
the date part is ever used). -/
structure DataBR where
  ano : Nat
  mes : Nat
  dia : Nat
deriving DecidableEq, Repr

/-- Sort key of a date: `datetime` comparison is lexicographic on
(year, month, day), which this encoding realises (month ≤ 12 < 100 and
day ≤ 31 < 100 for every date the parser produces). -/
def DataBR.key (d : DataBR) : Nat :=
  d.ano * 10000 + d.mes * 100 + d.dia

/-- Gregorian leap year, as `datetime` validates it. -/
def bissexto (ano : Nat) : Bool :=
  ano % 4 = 0 && (ano % 100 ≠ 0 || ano % 400 = 0)

/-- Number of days of a month, as `datetime` validates it. -/
def diasNoMes (ano mes : Nat) : Nat :=
  if mes = 2 then (if bissexto ano then 29 else 28)
  else if mes = 4 || mes = 6 || mes = 9 || mes = 11 then 30
  else 31

/-- Decimal digit list to number (most significant first); `none` on a
non-digit or on the empty list. -/
def digitosParaNat : List Char → Option Nat
  | [] => none
  | l => l.foldl
      (fun acc c => acc.bind (fun n => if c.isDigit then some (n * 10 + (c.toNat - 48)) else none))
      (some 0)

/-- A `%d` or `%m` field of `strptime`: one or two digits, value between 1 and
`max` (the regexes `3[01]|[12]\d|0[1-9]|[1-9]` and `1[0-2]|0[1-9]|[1-9]`). -/
def campoDoisDigitos (s : String) (max : Nat) : Option Nat :=
  if 1 ≤ s.data.length ∧ s.data.length ≤ 2 then
    match digitosParaNat s.data with
    | some v => if 1 ≤ v ∧ v ≤ max then some v else none
    | none => none
  else none

/-- A `%Y` field of `strptime`: exactly four digits; `datetime` additionally
requires the year to be at least 1. -/
def campoAno (s : String) : Option Nat :=
  if s.data.length = 4 then
    match digitosParaNat s.data with
    | some v => if 1 ≤ v then some v else none
    | none => none
  else none

/-- `datetime.strptime(data_str, "%d/%m/%Y")` (source line 206), returning
`none` where Python raises `ValueError`: wrong shape, out-of-range field, or
a day that does not exist in the month. -/
def strptime_dmY (s : String) : Option DataBR :=
  match pySplit s '/' with
  | [ds, ms, ys] =>
    match campoDoisDigitos ds 31, campoDoisDigitos ms 12, campoAno ys with
    | some d, some m, some a =>
      if d ≤ diasNoMes a m then some ⟨a, m, d⟩ else none
    | _, _, _ => none
  | _ => none

/-! ## Amounts (`float(valor_str.replace(',', '.'))`) -/

/-- Splits a decimal-digit run, allowing the empty run. -/
def lerDigitos (l : List Char) : Option Nat :=
  if l ≠ [] ∧ l.all Char.isDigit then digitosParaNat l else none

/-- The optional sign accepted by `float`. -/
def lerSinal : List Char → Bool × List Char
  | '+' :: rest => (false, rest)
  | '-' :: rest => (true, rest)
  | l => (false, l)

/-- The mantissa accepted by `float`: `D+ | D+ . D* | D* . D+`; returns the
value as numerator over a power of ten. -/
def lerMantissa (l : List Char) : Option (Nat × Nat) :=
  match splitCh '.' l with
  | [a] => (lerDigitos a).map (fun v => (v, 0))
  | [a, b] =>
    if a = [] then (lerDigitos b).map (fun v => (v, b.length))
    else if b = [] then (lerDigitos a).map (fun v => (v, 0))
    else
      match lerDigitos a, lerDigitos b with
      | some va, some vb => some (va * 10 ^ b.length + vb, b.length)
      | _, _ => none
  | _ => none

/-- The exact rational value `(-1)^neg * m / 10^f * 10^e`, built with
`mkRat` (the reducible smart constructor) rather than the field operations
of `ℚ`. -/
def valorDecimal (neg : Bool) (m f : Nat) (e : Int) : ℚ :=
  let net : Int := e - (f : Int)
  let q : ℚ :=
    if 0 ≤ net then mkRat ((m : Int) * (10 : Int) ^ net.toNat) 1
    else mkRat (m : Int) (10 ^ (-net).toNat)
  if neg then -q else q

/-- `float(s)` on decimal literals, as an exact rational: optional
whitespace, optional sign, mantissa, optional exponent.  `inf`, `nan`,
hexadecimal forms and underscore digit separators are modelled as parse
failures (`none`), as are all strings Python rejects with `ValueError`. -/
def pyFloat (s : String) : Option ℚ :=
  let t := pyStripList s.data
  let (neg, t2) := lerSinal t
  match t2.splitOnP (fun c => c = 'e' || c = 'E') with
  | [m] =>
    (lerMantissa m).map (fun mant => valorDecimal neg mant.1 mant.2 0)
  | [m, ex] =>
    match lerMantissa m with
    | some mant =>
      let (eneg, edig) := lerSinal ex
      (lerDigitos edig).map (fun ev =>
        valorDecimal neg mant.1 mant.2 (if eneg then -(ev : Int) else (ev : Int)))
    | none => none
  | _ => none

/-! ## Description cleaning (`' '.join(descricao.replace('*', ' ').split())`) -/

/-- The words of a character list — the maximal runs of non-whitespace, as
Python's argumentless `str.split()` produces them — computed with an
accumulator holding the reversed current word. -/
def palavrasAux : List Char → List Char → List (List Char)
  | [], cur => if cur = [] then [] else [cur.reverse]
  | c :: rest, cur =>
    if pySpace c then
      if cur = [] then palavrasAux rest []
      else cur.reverse :: palavrasAux rest []
    else palavrasAux rest (c :: cur)

/-- `s.split()` (no separator argument): the whitespace-separated words. -/
def palavras (l : List Char) : List (List Char) :=
  palavrasAux l []

/-- `' '.join(s.replace('*', ' ').split())` (source line 205), on character
lists. -/
def limparDescricaoList (l : List Char) : List Char :=
  List.intercalate [' '] (palavras (l.map (fun c => if c = '*' then ' ' else c)))

/-- The description cleanup of the extractor, on `String`s. -/
def limparDescricao (s : String) : String :=
  ⟨limparDescricaoList s.data⟩

/-- `str(i)` for the row index interpolated into the hash input: Python's
decimal rendering coincides with `Nat.repr`. -/
def natRepr (n : Nat) : String :=
  Nat.repr n

/-! ## Transaction extractor (`analisar_transacoes`) -/

/-- Synonyms accepted for the `data` field (`MAPEAMENTO_CAMPOS`, source
lines 130–138). -/
def sinonimos_data : List String := ["data", "date"]

/-- Synonyms accepted for the `descricao` field. -/
def sinonimos_descricao : List String :=
  ["histórico", "historico", "descrição", "descricao", "description", "memo"]

/-- Synonyms accepted for the `valor` field. -/
def sinonimos_valor : List String := ["valor", "montante", "amount", "value"]

/-- Synonyms accepted for the `id_transacao` field. -/
def sinonimos_id_transacao : List String :=
  ["id", "id da transação", "id_da_transacao", "checknum"]

/-- Synonyms accepted for the `bank_id` field. -/
def sinonimos_bank_id : List String :=
  ["banco", "bankid", "código do banco", "codigo_banco"]

/-- Synonyms accepted for the `agencia` field. -/
def sinonimos_agencia : List String := ["agência", "agencia"]

/-- Synonyms accepted for the `acct_id` field. -/
def sinonimos_acct_id : List String :=
  ["conta", "acctid", "número da conta", "numero_da_conta", "cartão", "cartao"]

/-- The header split into trimmed column names, case preserved
(`cabecalho_original`, source line 142). -/
def cabecalho_original (cabecalho_str : String) : List String :=
  (pySplit cabecalho_str ';').map pyStrip

/-- The case-folded copy of the header used for matching
(`cabecalho_busca`, source line 143). -/
def cabecalho_busca (cabecalho_str : String) : List String :=
  (cabecalho_original cabecalho_str).map pyLower

/-- Resolution of one semantic field (source lines 147–153): scan the
candidate spellings in listed order; the first one present in the case-folded
header wins, and the entry maps to the original spelling of that column. -/
def resolveCampo (orig busca : List String) (possiveis : List String) : Option String :=
  match possiveis.find? (fun c => busca.contains c) with
  | none => none
  | some c => some (orig.getD (busca.indexOf c) "")

/-- The resolved field map `mapa_final`: semantic field name to original
header column name, `none` where no synonym matched. -/
structure MapaFinal where
  data : Option String
  descricao : Option String
  valor : Option String
  id_transacao : Option String
  bank_id : Option String
  agencia : Option String
  acct_id : Option String
deriving DecidableEq, Repr

/-- Builds `mapa_final` from a header string. -/
def montaMapa (cabecalho_str : String) : MapaFinal :=
  let orig := cabecalho_original cabecalho_str
  let busca := cabecalho_busca cabecalho_str
  { data := resolveCampo orig busca sinonimos_data
    descricao := resolveCampo orig busca sinonimos_descricao
    valor := resolveCampo orig busca sinonimos_valor
    id_transacao := resolveCampo orig busca sinonimos_id_transacao
    bank_id := resolveCampo orig busca sinonimos_bank_id
    agencia := resolveCampo orig busca sinonimos_agencia
    acct_id := resolveCampo orig busca sinonimos_acct_id }

/-- First diagnostic printed when a mandatory field is unresolved (source
line 159; rendered without the Python quoting). -/
def msg_campo_ausente (campo : String) : String :=
  "Erro: Nao foi possivel encontrar uma coluna para " ++ campo ++
    " no cabecalho do CSV."

/-- Second diagnostic printed when a mandatory field is unresolved (source
line 160): it lists the accepted spellings for the field. -/
def msg_opcoes (campo : String) (possiveis : List String) : String :=
  "O cabecalho deve conter uma das seguintes opcoes para " ++ campo ++ ": " ++
    String.intercalate ", " possiveis

/-- A Python exception raised inside the per-row loop.  The source's handler
(line 223) catches exactly `ValueError`, `IndexError` and `KeyError`; a
`TypeError` or `AttributeError` escapes it and aborts the whole program. -/
inductive PyErr where
  | valueError
  | keyError
  | indexError
  | typeError
  | attributeError
deriving DecidableEq, Repr

/-- Whether the row handler catches the exception. -/
def PyErr.caught : PyErr → Bool
  | .valueError => true
  | .keyError => true
  | .indexError => true
  | _ => false

/-- One row as `csv.DictReader` presents it: each field name paired with its
cell, `none` standing for the `restval = None` filled in when the row is
shorter than the header.  Quoted fields are not modelled (the statement files
the script targets are unquoted), so a row parses as a plain `;` split. -/
def dictReaderRow (fieldnames : List String) (linha : String) :
    List (String × Option String) :=
  let cells := pySplit linha ';'
  fieldnames.enum.map (fun p => (p.2, cells.get? p.1))

/-- Dictionary lookup on a `DictReader` row; with duplicate field names the
later column wins, as in the Python `dict`.  The outer `none` is a missing
key (`KeyError` on subscript access). -/
def rowGet (row : List (String × Option String)) (k : String) :
    Option (Option String) :=
  (row.reverse.find? (fun p => p.1 = k)).map (fun p => p.2)

/-- One parsed transaction record (the dictionary appended at source
lines 216–222).  `id_transacao = none` marks the non-string values Python can
store there (a `None` cell or the `restkey` list); no claim depends on
them. -/
structure Transacao where
  data : DataBR
  descricao : String
  valor : ℚ
  id_transacao : Option String
  fitid : String
deriving DecidableEq, Repr

/-- The plain-text content hashed for the FITID (source line 214):
raw date string, stripped-but-uncleaned description, raw amount string, and
the decimal row index, concatenated. -/
def fitidInput (data_str descricao valor_str : String) (i : Nat) : String :=
  data_str ++ descricao ++ valor_str ++ natRepr i

/-- The body of the per-row `try` block (source lines 198–222), with the
exception raised — if any — made explicit.  `md5hex` abstracts
`hashlib.md5(...).hexdigest()`. -/
def parseRow (md5hex : String → String) (mapa : MapaFinal) (cab : List String)
    (linha : String) (i : Nat) (tipo_conta : String) : Except PyErr Transacao :=
  let row := dictReaderRow cab linha
  match mapa.data with
  | none => .error .keyError
  | some kd =>
    match rowGet row kd with
    | none => .error .keyError
    | some data_cell =>
      match mapa.descricao with
      | none => .error .keyError
      | some kdesc =>
        match rowGet row kdesc with
        | none => .error .keyError
        | some desc_cell =>
          match desc_cell with
          | none => .error .attributeError
          | some descRaw =>
            let descricao := pyStrip descRaw
            match mapa.valor with
            | none => .error .keyError
            | some kv =>
              match rowGet row kv with
              | none => .error .keyError
              | some valor_cell =>
                let id_transacao : Option String :=
                  match mapa.id_transacao with
                  | none =>
                    if cab.length < (pySplit linha ';').length then none
                    else some ""
                  | some kid =>
                    match rowGet row kid with
                    | none => some ""
                    | some v => v
                let descricao_limpa := limparDescricao descricao
                match data_cell with
                | none => .error .typeError
                | some dataRaw =>
                  match strptime_dmY dataRaw with
                  | none => .error .valueError
                  | some data_obj =>
                    match valor_cell with
                    | none => .error .attributeError
                    | some valorRaw =>
                      match pyFloat (pyReplace valorRaw ',' '.') with
                      | none => .error .valueError
                      | some v0 =>
                        let valor := if tipo_conta = "credito" then -v0 else v0
                        .ok { data := data_obj
                              descricao := descricao_limpa
                              valor := valor
                              id_transacao := id_transacao
                              fitid := md5hex (fitidInput dataRaw descricao valorRaw i) }

/-- Warning printed when a caught exception skips a row (source line 224; the
Python text interpolates the row dictionary, modelled here by the raw row
content). -/
def aviso_linha (linha : String) : String :=
  "Aviso: Ignorando linha mal formatada ou com dados ausentes: " ++ linha

/-- The row loop (source lines 197–225): parsed rows accumulate in order; a
caught exception logs a warning and continues with the next row; an uncaught
exception aborts the whole extraction.  `csv` yields nothing for an entirely
empty line, without advancing the row index, exactly as `enumerate` over the
reader does. -/
def processRows (md5hex : String → String) (mapa : MapaFinal)
    (cab : List String) (tipo_conta : String) :
    Nat → List String → List String × Except PyErr (List Transacao)
  | _, [] => ([], .ok [])
  | i, linha :: resto =>
    if linha = "" then processRows md5hex mapa cab tipo_conta i resto
    else
      match parseRow md5hex mapa cab linha i tipo_conta with
      | .ok t =>
        let (log, r) := processRows md5hex mapa cab tipo_conta (i + 1) resto
        (log, r.map (fun ts => t :: ts))
      | .error e =>
        if e.caught then
          let (log, r) := processRows md5hex mapa cab tipo_conta (i + 1) resto
          (aviso_linha linha :: log, r)
        else ([], .error e)

/-- Account-metadata extraction from the first data row (source
lines 163–191).  A lookup past the end of the short first row (`IndexError`)
is tolerated and leaves the field absent; Python truthiness makes an empty
`agencia` or `conta` behave as absent in the combination step. -/
def extraiMetadados (cab : List String) (mapa : MapaFinal)
    (linhas_csv : List String) : Option String × Option String :=
  match linhas_csv with
  | [] => (none, none)
  | primeira :: _ =>
    let cells := pySplit primeira ';'
    let pega : Option String → Option String := fun o =>
      match o with
      | none => none
      | some nome => (cells.get? (cab.indexOf nome)).map pyStrip
    let bank_id_encontrado := pega mapa.bank_id
    let agencia_encontrada := pega mapa.agencia
    let conta_encontrada := pega mapa.acct_id
    let acct_id_final : Option String :=
      match agencia_encontrada, conta_encontrada with
      | some a, some c =>
        if a ≠ "" ∧ c ≠ "" then some (a ++ "-" ++ c)
        else if c ≠ "" then some c
        else none
      | none, some c => if c ≠ "" then some c else none
      | _, none => none
    (bank_id_encontrado, acct_id_final)

/-- The comparison Python's stable `list.sort(key=lambda t: t['data'])`
applies: non-strict order on the date key. -/
def txLe (a b : Transacao) : Prop :=
  a.data.key ≤ b.data.key

instance : DecidableRel txLe := fun a b => Nat.decLe a.data.key b.data.key

instance : IsTotal Transacao txLe := ⟨fun a b => Nat.le_total a.data.key b.data.key⟩

instance : IsTrans Transacao txLe := ⟨fun _ _ _ h h2 => Nat.le_trans h h2⟩

/-- The stable ascending sort of source line 228.  Python's `list.sort` is a
stable sort; any stable sort is extensionally determined by the key order and
the input order, so insertion sort is a faithful model. -/
def ordenaTransacoes (ts : List Transacao) : List Transacao :=
  ts.insertionSort txLe

/-- `analisar_transacoes` (source lines 110–230).  The result pairs the
printed diagnostics with either the uncaught exception that aborted the run
or the returned triple (transaction list, bank id, account id). -/
def analisar_transacoes (md5hex : String → String) (cabecalho_str : String)
    (linhas_csv : List String) (tipo_conta : String) :
    List String × Except PyErr (List Transacao × Option String × Option String) :=
  let cab := cabecalho_original cabecalho_str
  let mapa := montaMapa cabecalho_str
  if mapa.data = none then
    ([msg_campo_ausente "data", msg_opcoes "data" sinonimos_data],
      .ok ([], none, none))
  else if mapa.descricao = none then
    ([msg_campo_ausente "descricao", msg_opcoes "descricao" sinonimos_descricao],
      .ok ([], none, none))
  else if mapa.valor = none then
    ([msg_campo_ausente "valor", msg_opcoes "valor" sinonimos_valor],
      .ok ([], none, none))
  else
    let meta := extraiMetadados cab mapa linhas_csv
    let (log, res) := processRows md5hex mapa cab tipo_conta 0 linhas_csv
    match res with
    | .error e => (log, .error e)
    | .ok ts => (log, .ok (ordenaTransacoes ts, meta.1, meta.2))

/-! ## Document generator (`gerar_ofx`), transaction-level fragment -/

/-- The transaction-direction tag of source line 349:
`"CREDIT" if t['valor'] > 0 else "DEBIT"`. -/
def tipo_transacao (valor : ℚ) : String :=
  if 0 < valor then "CREDIT" else "DEBIT"

/-- The ordered list of direction tags the generator emits, one per
transaction, in list order (the `for t in transacoes` loop of source
line 347). -/
def tagsGeradas (ts : List Transacao) : List String :=
  ts.map (fun t => tipo_transacao t.valor)

/-! ## Helper lemmas on the preprocessor -/

/-- A nonblank broken line arriving while nothing has been accepted leaves the
accumulator untouched. -/
theorem passo_nil_broken {linha : String}
    (hbroken : pyCount (pyStrip linha) ';' < 2) : passo [] linha = [] := by
  unfold passo
  by_cases h : pyStrip linha = ""
  · simp [h]
  · simp [h, hbroken]

/-! ## Claim C10 -/

/-- C10: a data line classified as broken (fewer than two `;`) that occurs
before any accepted data line has been collected is silently discarded: the
preprocessor behaves exactly as if the line were not present — it is neither
kept nor merged anywhere, and no diagnostic is produced. -/
theorem C10_linha_quebrada_inicial_descartada
    (l0 b : String) (pref rest : List String)
    (hacc : pref.foldl passo [] = [])
    (_hne : pyStrip b ≠ "") (hbroken : pyCount (pyStrip b) ';' < 2) :
    preprocessar_csv_corrigindo_linhas (some (l0 :: (pref ++ b :: rest))) =
      preprocessar_csv_corrigindo_linhas (some (l0 :: (pref ++ rest))) := by
  have h1 : (pref ++ b :: rest).foldl passo [] = (pref ++ rest).foldl passo [] := by
    rw [List.foldl_append, List.foldl_append, hacc]
    show (b :: rest).foldl passo [] = _
    rw [List.foldl_cons, passo_nil_broken hbroken]
  show ([], some (pyStrip l0, (pref ++ b :: rest).foldl passo [])) =
    ([], some (pyStrip l0, (pref ++ rest).foldl passo []))
  rw [h1]

/-- Witness for C10 at a concrete input: the fragment line `"frag"` right
after the header is dropped without a trace. -/
theorem C10_linha_quebrada_inicial_descartada_witness :
    preprocessar_csv_corrigindo_linhas
        (some ["Data;Historico;Valor", "frag", "01/03/2024;Compra;150,00"]) =
      preprocessar_csv_corrigindo_linhas
        (some ["Data;Historico;Valor", "01/03/2024;Compra;150,00"]) :=
  C10_linha_quebrada_inicial_descartada "Data;Historico;Valor" "frag" []
    ["01/03/2024;Compra;150,00"] rfl (by decide) (by decide)

/-! ## Claim C3 -/

/-- C3 counterexample: a readable file consisting of a single header line has
no data lines, yet the preprocessor does **not** return the absent (`None,
None`) result — it returns the header together with an empty list.  The
claim, which promises an absent result "whenever no header or no data lines
exist", is therefore false as stated. -/
theorem C3_contraexemplo :
    (preprocessar_csv_corrigindo_linhas (some ["Data;Historico;Valor"])).2 =
        some ("Data;Historico;Valor", []) ∧
    (preprocessar_csv_corrigindo_linhas (some ["Data;Historico;Valor"])).2 ≠
        none := by
  constructor
  · rfl
  · intro h
    simp [preprocessar_csv_corrigindo_linhas] at h

/-- C3 (amended): the preprocessor returns the absent (`None, None`) result
exactly when the file is unreadable or has zero lines; for any readable
nonempty file it returns the stripped first line as header together with the
repaired data lines (possibly the empty list), and the caller's guard rejects
that result exactly when the header is blank or no data line survived — so
the caller still aborts without output in the no-header / no-data cases. -/
theorem C3_resultado_ausente_caracterizacao (conteudo : Option (List String)) :
    ((preprocessar_csv_corrigindo_linhas conteudo).2 = none ↔
      conteudo = none ∨ conteudo = some []) ∧
    (∀ l0 resto, conteudo = some (l0 :: resto) →
      (preprocessar_csv_corrigindo_linhas conteudo).2 =
          some (pyStrip l0, resto.foldl passo []) ∧
      (caller_aceita (preprocessar_csv_corrigindo_linhas conteudo).2 = false ↔
        pyStrip l0 = "" ∨ resto.foldl passo [] = [])) := by
  constructor
  · match conteudo with
    | none => simp [preprocessar_csv_corrigindo_linhas]
    | some [] => simp [preprocessar_csv_corrigindo_linhas]
    | some (l0 :: resto) => simp [preprocessar_csv_corrigindo_linhas]
  · intro l0 resto h
    subst h
    refine ⟨rfl, ?_⟩
    simp [preprocessar_csv_corrigindo_linhas, caller_aceita]
    tauto

/-- Witness for C3 (amended) at a concrete header-only file: the result is
present, and the caller's guard rejects it because no data line survived. -/
theorem C3_resultado_ausente_caracterizacao_witness :
    (preprocessar_csv_corrigindo_linhas (some ["Data;Historico;Valor"])).2 =
        some (pyStrip "Data;Historico;Valor", List.foldl passo [] []) ∧
    (caller_aceita
        (preprocessar_csv_corrigindo_linhas (some ["Data;Historico;Valor"])).2 =
          false ↔
      pyStrip "Data;Historico;Valor" = "" ∨ List.foldl passo [] [] = []) :=
  (C3_resultado_ausente_caracterizacao (some ["Data;Historico;Valor"])).2
    "Data;Historico;Valor" [] rfl

/-! ## Claim C1 -/

/-- C1 (evidence of a code bug): a row shorter than the header, so that the
mandatory amount cell is absent, does **not** merely skip that row.
`csv.DictReader` fills the missing cell with `None`; the subsequent
`None.replace(',', '.')` raises an `AttributeError`, which the row handler —
it catches only `ValueError`, `IndexError` and `KeyError` — lets escape, so
the whole extraction aborts.  The same file without the short row parses its
remaining valid row fine, showing that the short row destroys the other
rows' extraction, contrary to the row-isolation the specification
promises. -/
theorem C1_celula_ausente_aborta_extracao :
    PyErr.caught .attributeError = false ∧
    analisar_transacoes (fun s => s) "banco;data;historico;valor"
        ["341;05/03/2024;Compra A", "341;06/03/2024;Compra B;10,00"] "banco" =
      ([], .error .attributeError) ∧
    (analisar_transacoes (fun s => s) "banco;data;historico;valor"
        ["341;06/03/2024;Compra B;10,00"] "banco").2 =
      .ok ([{ data := ⟨2024, 3, 6⟩, descricao := "Compra B", valor := 10,
              id_transacao := some "", fitid := "06/03/2024Compra B10,000" }],
        some "341", none) :=
  ⟨rfl, by rfl, by rfl⟩

/-! ## Claim C4 -/

/-- C4: if any of the three mandatory semantic fields (data, descricao,
valor) fails to resolve against the case-folded header, extraction aborts for
the whole file: the extractor returns an empty transaction list and no
account metadata, prints which semantic field is missing together with its
accepted spellings, and — the result being the same for every possible list
of data rows — performs no per-row processing at all. -/
theorem C4_campo_obrigatorio_ausente (md5hex : String → String)
    (cabecalho_str tipo_conta : String)
    (h : (montaMapa cabecalho_str).data = none ∨
      (montaMapa cabecalho_str).descricao = none ∨
      (montaMapa cabecalho_str).valor = none) :
    ∃ campo sins,
      ((campo = "data" ∧ sins = sinonimos_data) ∨
        (campo = "descricao" ∧ sins = sinonimos_descricao) ∨
        (campo = "valor" ∧ sins = sinonimos_valor)) ∧
      ∀ linhas_csv, analisar_transacoes md5hex cabecalho_str linhas_csv tipo_conta =
        ([msg_campo_ausente campo, msg_opcoes campo sins],
          .ok ([], none, none)) := by
  by_cases hd : (montaMapa cabecalho_str).data = none
  · refine ⟨"data", sinonimos_data, Or.inl ⟨rfl, rfl⟩, fun linhas_csv => ?_⟩
    simp [analisar_transacoes, hd]
  · by_cases hde : (montaMapa cabecalho_str).descricao = none
    · refine ⟨"descricao", sinonimos_descricao, Or.inr (Or.inl ⟨rfl, rfl⟩),
        fun linhas_csv => ?_⟩
      simp [analisar_transacoes, hd, hde]
    · have hv : (montaMapa cabecalho_str).valor = none := by tauto
      refine ⟨"valor", sinonimos_valor, Or.inr (Or.inr ⟨rfl, rfl⟩),
        fun linhas_csv => ?_⟩
      simp [analisar_transacoes, hd, hde, hv]

/-- Witness for C4 at a concrete header that lacks any amount column. -/
theorem C4_campo_obrigatorio_ausente_witness :
    ∃ campo sins,
      ((campo = "data" ∧ sins = sinonimos_data) ∨
        (campo = "descricao" ∧ sins = sinonimos_descricao) ∨
        (campo = "valor" ∧ sins = sinonimos_valor)) ∧
      ∀ linhas_csv, analisar_transacoes (fun s => s) "Data;Histórico" linhas_csv "banco" =
        ([msg_campo_ausente campo, msg_opcoes campo sins],
          .ok ([], none, none)) :=
  C4_campo_obrigatorio_ausente (fun s => s) "Data;Histórico" "banco"
    (Or.inr (Or.inr rfl))

/-! ## Claim C7: header resolution lemmas -/

/-- `find?` only depends on the predicate's values on the list. -/
theorem find?_congr_on {α : Type} (l : List α) (p q : α → Bool)
    (h : ∀ x ∈ l, p x = q x) : l.find? p = l.find? q := by
  induction l with
  | nil => rfl
  | cons a t ih =>
    have ha := h a (List.mem_cons_self a t)
    rw [List.find?_cons, List.find?_cons, ha]
    cases q a with
    | true => rfl
    | false => exact ih (fun x hx => h x (List.mem_cons_of_mem a hx))

/-- The case-folded spelling a semantic field resolves to is exactly the
first synonym present in the case-folded header: looking the found index up
in the original header and case-folding it lands back on the synonym. -/
theorem resolveCampo_lower (orig : List String) (possiveis : List String) :
    (resolveCampo orig (orig.map pyLower) possiveis).map pyLower =
      possiveis.find? (fun c => (orig.map pyLower).contains c) := by
  unfold resolveCampo
  cases hfind : possiveis.find? (fun c => (orig.map pyLower).contains c) with
  | none => rfl
  | some c =>
    have hc : c ∈ orig.map pyLower := by
      have := List.find?_some hfind
      exact List.elem_iff.mp this
    have hi : (orig.map pyLower).indexOf c < (orig.map pyLower).length :=
      List.indexOf_lt_length.mpr hc
    have hi2 : (orig.map pyLower).indexOf c < orig.length := by
      simpa using hi
    have hkey : pyLower (orig.getD ((orig.map pyLower).indexOf c) "") = c := by
      rw [List.getD_eq_getElem orig "" hi2, ← List.getElem_map (f := pyLower)]
      exact List.getElem_indexOf hi
    show some (pyLower (orig.getD ((orig.map pyLower).indexOf c) "")) = some c
    exact congrArg some hkey

/-- Two headers whose case-folded column lists contain the same names resolve
any synonym list to the same case-folded column name. -/
theorem resolveCampo_membro_equiv (o1 o2 : List String) (possiveis : List String)
    (h : ∀ x : String, x ∈ o1.map pyLower ↔ x ∈ o2.map pyLower) :
    (resolveCampo o1 (o1.map pyLower) possiveis).map pyLower =
      (resolveCampo o2 (o2.map pyLower) possiveis).map pyLower := by
  rw [resolveCampo_lower, resolveCampo_lower]
  apply find?_congr_on
  intro x _
  have := h x
  by_cases hx : x ∈ o1.map pyLower
  · have hx2 := this.mp hx
    simp [List.elem_iff, hx, hx2]
  · have hx2 : x ∉ List.map pyLower o2 := fun hh => hx (this.mpr hh)
    simp [List.elem_iff, hx]
    simpa using hx2

/-- The case-folded header of `montaMapa` is the `pyLower` image of the
original header. -/
theorem cabecalho_busca_eq_map (s : String) :
    cabecalho_busca s = (cabecalho_original s).map pyLower := rfl

/-! ## Claim C7 -/

/-- C7: header-to-semantic-field resolution is case-insensitive and
order-independent.  If two headers contain the same column names up to letter
case and column order (their case-folded column lists are permutations of
each other), then every semantic field of the resolved map points at the same
column name up to letter case — the synonym that wins is the same one, found
by exact case-folded equality in first-listed-synonym priority. -/
theorem C7_resolucao_independente_de_caixa_e_ordem (s1 s2 : String)
    (h : (cabecalho_busca s1).Perm (cabecalho_busca s2)) :
    (∀ possiveis : List String,
      (resolveCampo (cabecalho_original s1) (cabecalho_busca s1) possiveis).map pyLower =
        (resolveCampo (cabecalho_original s2) (cabecalho_busca s2) possiveis).map pyLower) ∧
    (montaMapa s1).data.map pyLower = (montaMapa s2).data.map pyLower ∧
    (montaMapa s1).descricao.map pyLower = (montaMapa s2).descricao.map pyLower ∧
    (montaMapa s1).valor.map pyLower = (montaMapa s2).valor.map pyLower ∧
    (montaMapa s1).id_transacao.map pyLower = (montaMapa s2).id_transacao.map pyLower ∧
    (montaMapa s1).bank_id.map pyLower = (montaMapa s2).bank_id.map pyLower ∧
    (montaMapa s1).agencia.map pyLower = (montaMapa s2).agencia.map pyLower ∧
    (montaMapa s1).acct_id.map pyLower = (montaMapa s2).acct_id.map pyLower := by
  have hmem : ∀ x : String,
      x ∈ (cabecalho_original s1).map pyLower ↔ x ∈ (cabecalho_original s2).map pyLower := by
    intro x
    rw [← cabecalho_busca_eq_map, ← cabecalho_busca_eq_map]
    exact h.mem_iff
  have hall : ∀ possiveis : List String,
      (resolveCampo (cabecalho_original s1) (cabecalho_busca s1) possiveis).map pyLower =
        (resolveCampo (cabecalho_original s2) (cabecalho_busca s2) possiveis).map pyLower := by
    intro possiveis
    rw [cabecalho_busca_eq_map, cabecalho_busca_eq_map]
    exact resolveCampo_membro_equiv _ _ possiveis hmem
  exact ⟨hall, hall sinonimos_data, hall sinonimos_descricao, hall sinonimos_valor,
    hall sinonimos_id_transacao, hall sinonimos_bank_id, hall sinonimos_agencia,
    hall sinonimos_acct_id⟩

/-- Witness for C7 at the specification's own example pair of headers. -/
theorem C7_resolucao_independente_de_caixa_e_ordem_witness :
    (∀ possiveis : List String,
      (resolveCampo (cabecalho_original "Data;Valor;Histórico")
          (cabecalho_busca "Data;Valor;Histórico") possiveis).map pyLower =
        (resolveCampo (cabecalho_original "data;histórico;valor")
          (cabecalho_busca "data;histórico;valor") possiveis).map pyLower) ∧
    (montaMapa "Data;Valor;Histórico").data.map pyLower =
      (montaMapa "data;histórico;valor").data.map pyLower ∧
    (montaMapa "Data;Valor;Histórico").descricao.map pyLower =
      (montaMapa "data;histórico;valor").descricao.map pyLower ∧
    (montaMapa "Data;Valor;Histórico").valor.map pyLower =
      (montaMapa "data;histórico;valor").valor.map pyLower ∧
    (montaMapa "Data;Valor;Histórico").id_transacao.map pyLower =
      (montaMapa "data;histórico;valor").id_transacao.map pyLower ∧
    (montaMapa "Data;Valor;Histórico").bank_id.map pyLower =
      (montaMapa "data;histórico;valor").bank_id.map pyLower ∧
    (montaMapa "Data;Valor;Histórico").agencia.map pyLower =
      (montaMapa "data;histórico;valor").agencia.map pyLower ∧
    (montaMapa "Data;Valor;Histórico").acct_id.map pyLower =
      (montaMapa "data;histórico;valor").acct_id.map pyLower :=
  C7_resolucao_independente_de_caixa_e_ordem "Data;Valor;Histórico"
    "data;histórico;valor" (by decide)

/-! ## Inversion of a successful row parse -/

/-- Inversion: a successful `parseRow` pins down the resolved keys, the three
raw cells, the parsed date and amount, and every stored field of the
resulting transaction. -/
theorem parseRow_ok_inversao {md5hex : String → String} {mapa : MapaFinal}
    {cab : List String} {linha : String} {i : Nat} {tipo_conta : String}
    {t : Transacao} (h : parseRow md5hex mapa cab linha i tipo_conta = .ok t) :
    ∃ kd kdesc kv dataRaw descRaw valorRaw dObj q,
      mapa.data = some kd ∧
      rowGet (dictReaderRow cab linha) kd = some (some dataRaw) ∧
      mapa.descricao = some kdesc ∧
      rowGet (dictReaderRow cab linha) kdesc = some (some descRaw) ∧
      mapa.valor = some kv ∧
      rowGet (dictReaderRow cab linha) kv = some (some valorRaw) ∧
      strptime_dmY dataRaw = some dObj ∧
      pyFloat (pyReplace valorRaw ',' '.') = some q ∧
      t.data = dObj ∧
      t.descricao = limparDescricao (pyStrip descRaw) ∧
      t.valor = (if tipo_conta = "credito" then -q else q) ∧
      t.fitid = md5hex (fitidInput dataRaw (pyStrip descRaw) valorRaw i) := by
  unfold parseRow at h
  cases hd : mapa.data with
  | none => simp only [hd] at h; exact Except.noConfusion h
  | some kd =>
  simp only [hd] at h
  cases hdc : rowGet (dictReaderRow cab linha) kd with
  | none => simp only [hdc] at h; exact Except.noConfusion h
  | some data_cell =>
  simp only [hdc] at h
  cases hde : mapa.descricao with
  | none => simp only [hde] at h; exact Except.noConfusion h
  | some kdesc =>
  simp only [hde] at h
  cases hdec : rowGet (dictReaderRow cab linha) kdesc with
  | none => simp only [hdec] at h; exact Except.noConfusion h
  | some desc_cell =>
  simp only [hdec] at h
  cases desc_cell with
  | none => simp at h
  | some descRaw =>
  cases hv : mapa.valor with
  | none => simp only [hv] at h; exact Except.noConfusion h
  | some kv =>
  simp only [hv] at h
  cases hvc : rowGet (dictReaderRow cab linha) kv with
  | none => simp only [hvc] at h; exact Except.noConfusion h
  | some valor_cell =>
  simp only [hvc] at h
  cases data_cell with
  | none => simp at h
  | some dataRaw =>
  cases hdt : strptime_dmY dataRaw with
  | none => simp only [hdt] at h; exact Except.noConfusion h
  | some dObj =>
  simp only [hdt] at h
  cases valor_cell with
  | none => simp at h
  | some valorRaw =>
  cases hq : pyFloat (pyReplace valorRaw ',' '.') with
  | none => simp only [hq] at h; exact Except.noConfusion h
  | some q =>
  simp only [hq] at h
  cases h
  exact ⟨kd, kdesc, kv, dataRaw, descRaw, valorRaw, dObj, q, rfl, hdc, rfl, hdec,
    rfl, hvc, hdt, hq, rfl, rfl, rfl, rfl⟩

/-! ## Injectivity of the decimal row index -/

/-- Proof-side decimal digits of a natural number, most significant first
(the fuel-free counterpart of `Nat.toDigitsCore`). -/
def digitsWF (n : Nat) : List Char :=
  if n < 10 then [Nat.digitChar n]
  else digitsWF (n / 10) ++ [Nat.digitChar (n % 10)]
termination_by n
decreasing_by
  exact Nat.div_lt_self (by omega) (by omega)

/-- `Nat.toDigitsCore` with enough fuel computes `digitsWF`. -/
theorem toDigitsCore_eq_digitsWF :
    ∀ (f n : Nat) (acc : List Char), n < f →
      Nat.toDigitsCore 10 f n acc = digitsWF n ++ acc := by
  intro f
  induction f with
  | zero => intro n acc h; omega
  | succ f ih =>
    intro n acc h
    rw [Nat.toDigitsCore]
    by_cases h10 : n / 10 = 0
    · have hn : n < 10 := by omega
      rw [digitsWF]
      simp [h10, hn, Nat.mod_eq_of_lt hn]
    · have hlt : n / 10 < f := by
        have h1 : n / 10 < n := Nat.div_lt_self (by omega) (by omega)
        omega
      simp only [h10, if_neg]
      rw [ih (n / 10) (Nat.digitChar (n % 10) :: acc) hlt]
      have hge : ¬ n < 10 := by
        intro hn
        exact h10 (Nat.div_eq_of_lt hn)
      conv_rhs => rw [digitsWF]
      simp [hge]

/-- `natRepr` (= `Nat.repr`) seen through `digitsWF`. -/
theorem natRepr_eq_digitsWF (n : Nat) : natRepr n = ⟨digitsWF n⟩ := by
  show Nat.repr n = _
  unfold Nat.repr Nat.toDigits
  rw [toDigitsCore_eq_digitsWF (n + 1) n [] (Nat.lt_succ_self n)]
  simp [List.asString]

/-- Unfolding of `digitsWF` below 10. -/
theorem digitsWF_lt {n : Nat} (h : n < 10) : digitsWF n = [Nat.digitChar n] := by
  rw [digitsWF]
  simp [h]

/-- Unfolding of `digitsWF` at 10 and above. -/
theorem digitsWF_ge {n : Nat} (h : ¬ n < 10) :
    digitsWF n = digitsWF (n / 10) ++ [Nat.digitChar (n % 10)] := by
  conv_lhs => rw [digitsWF]
  simp [h]

/-- `Nat.digitChar` is injective below 10. -/
theorem digitChar_inj_lt {a b : Nat} (ha : a < 10) (hb : b < 10)
    (h : Nat.digitChar a = Nat.digitChar b) : a = b := by
  have hfin : ∀ x y : Fin 10, Nat.digitChar x.val = Nat.digitChar y.val → x.val = y.val := by
    decide
  exact hfin ⟨a, ha⟩ ⟨b, hb⟩ h

/-- `digitsWF` never returns the empty list. -/
theorem digitsWF_ne_nil (n : Nat) : digitsWF n ≠ [] := by
  by_cases h : n < 10
  · rw [digitsWF_lt h]
    simp
  · rw [digitsWF_ge h]
    simp

/-- `digitsWF` is injective: the decimal digit string identifies the
number. -/
theorem digitsWF_inj : ∀ m n : Nat, digitsWF m = digitsWF n → m = n := by
  intro m
  induction m using Nat.strong_induction_on with
  | _ m ih =>
    intro n h
    by_cases hm : m < 10 <;> by_cases hn : n < 10
    · rw [digitsWF_lt hm, digitsWF_lt hn] at h
      simp only [List.cons.injEq, and_true] at h
      exact digitChar_inj_lt hm hn h
    · rw [digitsWF_lt hm, digitsWF_ge hn] at h
      have hlen := congrArg List.length h
      have hd := digitsWF_ne_nil (n / 10)
      cases hx : digitsWF (n / 10) with
      | nil => exact absurd hx hd
      | cons x xs =>
        rw [hx] at hlen
        simp at hlen
    · rw [digitsWF_ge hm, digitsWF_lt hn] at h
      have hlen := congrArg List.length h
      have hd := digitsWF_ne_nil (m / 10)
      cases hx : digitsWF (m / 10) with
      | nil => exact absurd hx hd
      | cons x xs =>
        rw [hx] at hlen
        simp at hlen
    · rw [digitsWF_ge hm, digitsWF_ge hn] at h
      have hp := List.append_inj' h (by rfl)
      have h1 : m / 10 = n / 10 := ih (m / 10)
        (Nat.div_lt_self (by omega) (by omega)) (n / 10) hp.1
      have h2 : m % 10 = n % 10 := by
        have h3 := hp.2
        simp only [List.cons.injEq, and_true] at h3
        exact digitChar_inj_lt (Nat.mod_lt m (by omega)) (Nat.mod_lt n (by omega)) h3
      omega

/-- Strings with equal character lists are equal. -/
theorem string_data_inj {a b : String} (h : a.data = b.data) : a = b := by
  cases a
  cases b
  simp only at h
  rw [h]

/-- The decimal rendering of the row index is injective. -/
theorem natRepr_inj {i j : Nat} (h : natRepr i = natRepr j) : i = j := by
  rw [natRepr_eq_digitsWF, natRepr_eq_digitsWF] at h
  exact digitsWF_inj i j (congrArg String.data h)

/-- With identical raw content, different row indices give different hash
inputs: the decimal index is the final segment of the concatenation. -/
theorem fitidInput_inj_indice (data_str descricao valor_str : String)
    {i j : Nat} (hij : i ≠ j) :
    fitidInput data_str descricao valor_str i ≠
      fitidInput data_str descricao valor_str j := by
  intro h
  apply hij
  apply natRepr_inj
  have hdata := congrArg String.data h
  simp only [fitidInput, String.data_append, List.append_assoc] at hdata
  exact string_data_inj
    (List.append_cancel_left (List.append_cancel_left (List.append_cancel_left hdata)))

/-! ## Claim C9 -/

/-- C9: the per-transaction identifier is the hash of the concatenation of
the raw date string, the raw (untranslated, end-trimmed but not yet
asterisk-cleaned) description, the raw amount string and the decimal row
index; it is deterministic — parsing the same row at the same index again
yields the same identifier — and, whenever the hash function is injective,
the same row content parsed at a different row index yields a distinct
identifier. -/
theorem C9_fitid_hash_de_conteudo (md5hex : String → String) (mapa : MapaFinal)
    (cab : List String) (linha : String) (i : Nat) (tipo_conta : String)
    (t : Transacao) (kd kdesc kv dataRaw descRaw valorRaw : String)
    (hd : mapa.data = some kd)
    (hdc : rowGet (dictReaderRow cab linha) kd = some (some dataRaw))
    (hde : mapa.descricao = some kdesc)
    (hdec : rowGet (dictReaderRow cab linha) kdesc = some (some descRaw))
    (hv : mapa.valor = some kv)
    (hvc : rowGet (dictReaderRow cab linha) kv = some (some valorRaw))
    (hok : parseRow md5hex mapa cab linha i tipo_conta = .ok t) :
    t.fitid = md5hex (fitidInput dataRaw (pyStrip descRaw) valorRaw i) ∧
    (∀ t2, parseRow md5hex mapa cab linha i tipo_conta = .ok t2 →
      t2.fitid = t.fitid) ∧
    (Function.Injective md5hex →
      ∀ j t2, j ≠ i → parseRow md5hex mapa cab linha j tipo_conta = .ok t2 →
        t2.fitid ≠ t.fitid) := by
  obtain ⟨kd1, kdesc1, kv1, dR1, deR1, vR1, dObj, q, e1, e2, e3, e4, e5, e6,
    e7, e8, e9, e10, e11, e12⟩ := parseRow_ok_inversao hok
  injection hd.symm.trans e1 with h1
  subst h1
  injection hdc.symm.trans e2 with h2
  injection h2 with h2
  subst h2
  injection hde.symm.trans e3 with h3
  subst h3
  injection hdec.symm.trans e4 with h4
  injection h4 with h4
  subst h4
  injection hv.symm.trans e5 with h5
  subst h5
  injection hvc.symm.trans e6 with h6
  injection h6 with h6
  subst h6
  refine ⟨e12, ?_, ?_⟩
  · intro t2 h2ok
    have := hok.symm.trans h2ok
    injection this with h
    rw [← h]
  · intro hinj j t2 hji h2ok
    obtain ⟨kd2, kdesc2, kv2, dR2, deR2, vR2, dObj2, q2, f1, f2, f3, f4, f5,
      f6, f7, f8, f9, f10, f11, f12⟩ := parseRow_ok_inversao h2ok
    injection hd.symm.trans f1 with g1
    subst g1
    injection hdc.symm.trans f2 with g2
    injection g2 with g2
    subst g2
    injection hde.symm.trans f3 with g3
    subst g3
    injection hdec.symm.trans f4 with g4
    injection g4 with g4
    subst g4
    injection hv.symm.trans f5 with g5
    subst g5
    injection hvc.symm.trans f6 with g6
    injection g6 with g6
    subst g6
    rw [f12, e12]
    intro hcontra
    exact fitidInput_inj_indice dataRaw (pyStrip descRaw) valorRaw hji
      (hinj hcontra)

/-- Witness for C9 on a concrete row, with the identity function (which is
injective) standing in for the hex digest. -/
theorem C9_fitid_hash_de_conteudo_witness :
    ("01/03/2024Compra150,000" : String) =
        fitidInput "01/03/2024" (pyStrip "Compra") "150,00" 0 ∧
    (∀ t2, parseRow (fun s => s) (montaMapa "Data;Histórico;Valor")
          (cabecalho_original "Data;Histórico;Valor") "01/03/2024;Compra;150,00"
          0 "banco" = .ok t2 →
      t2.fitid = "01/03/2024Compra150,000") ∧
    (Function.Injective (fun s : String => s) →
      ∀ j t2, j ≠ 0 → parseRow (fun s => s) (montaMapa "Data;Histórico;Valor")
          (cabecalho_original "Data;Histórico;Valor") "01/03/2024;Compra;150,00"
          j "banco" = .ok t2 →
        t2.fitid ≠ "01/03/2024Compra150,000") :=
  C9_fitid_hash_de_conteudo (fun s => s) (montaMapa "Data;Histórico;Valor")
    (cabecalho_original "Data;Histórico;Valor") "01/03/2024;Compra;150,00" 0
    "banco"
    { data := ⟨2024, 3, 1⟩, descricao := "Compra", valor := 150,
      id_transacao := some "", fitid := "01/03/2024Compra150,000" }
    "Data" "Histórico" "Valor" "01/03/2024" "Compra" "150,00"
    rfl rfl rfl rfl rfl rfl rfl

/-! ## Claim C5 -/

/-- C5: for a successfully parsed row whose CSV amount cell parses to the
rational `q`, the credit-card mode stores the negation `-q` (so a positive
CSV amount becomes negative) while the bank mode stores `q` unchanged; the
generator's direction tag is `CREDIT` exactly when the stored amount is
strictly positive and `DEBIT` otherwise, a zero amount being classified
`DEBIT`. -/
theorem C5_sinal_e_tag_de_direcao (md5hex : String → String) (mapa : MapaFinal)
    (cab : List String) (linha : String) (i : Nat)
    (kv valorRaw : String) (q : ℚ) (t_cred t_banco : Transacao)
    (hv : mapa.valor = some kv)
    (hvc : rowGet (dictReaderRow cab linha) kv = some (some valorRaw))
    (hq : pyFloat (pyReplace valorRaw ',' '.') = some q)
    (hcred : parseRow md5hex mapa cab linha i "credito" = .ok t_cred)
    (hbanco : parseRow md5hex mapa cab linha i "banco" = .ok t_banco) :
    t_cred.valor = -q ∧
    t_banco.valor = q ∧
    (0 < q → t_cred.valor < 0 ∧ tipo_transacao t_cred.valor = "DEBIT") ∧
    (tipo_transacao t_banco.valor = if 0 < q then "CREDIT" else "DEBIT") ∧
    (∀ v : ℚ, v = 0 → tipo_transacao v = "DEBIT") := by
  obtain ⟨kd1, kdesc1, kv1, dR1, deR1, vR1, dObj1, q1, e1, e2, e3, e4, e5, e6,
    e7, e8, e9, e10, e11, e12⟩ := parseRow_ok_inversao hcred
  injection hv.symm.trans e5 with h5
  subst h5
  injection hvc.symm.trans e6 with h6
  injection h6 with h6
  subst h6
  injection hq.symm.trans e8 with h8
  subst h8
  obtain ⟨kd2, kdesc2, kv2, dR2, deR2, vR2, dObj2, q2, f1, f2, f3, f4, f5, f6,
    f7, f8, f9, f10, f11, f12⟩ := parseRow_ok_inversao hbanco
  injection hv.symm.trans f5 with g5
  subst g5
  injection hvc.symm.trans f6 with g6
  injection g6 with g6
  subst g6
  injection hq.symm.trans f8 with g8
  subst g8
  have hcredEq : ("credito" : String) = "credito" := rfl
  have hbancoNe : ("banco" : String) ≠ "credito" := by decide
  rw [if_pos hcredEq] at e11
  rw [if_neg hbancoNe] at f11
  refine ⟨e11, f11, ?_, ?_, ?_⟩
  · intro hqpos
    constructor
    · rw [e11]
      exact neg_neg_of_pos hqpos
    · rw [e11]
      unfold tipo_transacao
      rw [if_neg (by linarith)]
  · rw [f11]
    rfl
  · intro v hv0
    subst hv0
    unfold tipo_transacao
    rw [if_neg (by norm_num)]

/-- Witness for C5 on the specification's concrete scenario row
(`150,00`, bank mode tags CREDIT; credit-card mode stores `-150` and tags
DEBIT). -/
theorem C5_sinal_e_tag_de_direcao_witness :
    ((-150 : ℚ) = -(150 : ℚ)) ∧
    ((150 : ℚ) = (150 : ℚ)) ∧
    ((0 : ℚ) < 150 → ((-150 : ℚ) < 0 ∧ tipo_transacao (-150 : ℚ) = "DEBIT")) ∧
    (tipo_transacao (150 : ℚ) = if (0 : ℚ) < 150 then "CREDIT" else "DEBIT") ∧
    (∀ v : ℚ, v = 0 → tipo_transacao v = "DEBIT") :=
  C5_sinal_e_tag_de_direcao (fun s => s) (montaMapa "Data;Histórico;Valor")
    (cabecalho_original "Data;Histórico;Valor") "01/03/2024;Compra Loja X;150,00"
    0 "Valor" "150,00" 150
    { data := ⟨2024, 3, 1⟩, descricao := "Compra Loja X", valor := -150,
      id_transacao := some "", fitid := "01/03/2024Compra Loja X150,000" }
    { data := ⟨2024, 3, 1⟩, descricao := "Compra Loja X", valor := 150,
      id_transacao := some "", fitid := "01/03/2024Compra Loja X150,000" }
    rfl rfl rfl rfl rfl

/-! ## Claim C6: stability of the date sort -/

/-- Inserting a transaction whose date key is `k` leaves it in front of all
equal-key elements already present (elements skipped by the insertion have a
strictly smaller key). -/
theorem filter_orderedInsert_chave_eq (k : Nat) (t : Transacao)
    (l : List Transacao) (ht : t.data.key = k) :
    (List.orderedInsert txLe t l).filter (fun x => x.data.key == k) =
      t :: l.filter (fun x => x.data.key == k) := by
  induction l with
  | nil => simp [ht]
  | cons b l ih =>
    by_cases hb : txLe t b
    · rw [List.orderedInsert, if_pos hb]
      simp [ht]
    · rw [List.orderedInsert, if_neg hb]
      have hbk : b.data.key ≠ k := by
        unfold txLe at hb
        omega
      rw [List.filter_cons, if_neg (by simp [hbk]), ih, List.filter_cons,
        if_neg (by simp [hbk])]

/-- Inserting a transaction whose date key is not `k` does not disturb the
`k`-dated subsequence. -/
theorem filter_orderedInsert_chave_ne (k : Nat) (t : Transacao)
    (l : List Transacao) (ht : t.data.key ≠ k) :
    (List.orderedInsert txLe t l).filter (fun x => x.data.key == k) =
      l.filter (fun x => x.data.key == k) := by
  induction l with
  | nil => simp [ht]
  | cons b l ih =>
    by_cases hb : txLe t b
    · rw [List.orderedInsert, if_pos hb]
      simp [ht]
    · rw [List.orderedInsert, if_neg hb]
      rw [List.filter_cons, List.filter_cons, ih]

/-- Stability of the insertion sort used to model `list.sort`: for every date
key, the subsequence of transactions carrying that date is preserved
verbatim, in its original relative order. -/
theorem filter_ordenaTransacoes (k : Nat) (l : List Transacao) :
    (ordenaTransacoes l).filter (fun x => x.data.key == k) =
      l.filter (fun x => x.data.key == k) := by
  unfold ordenaTransacoes
  induction l with
  | nil => rfl
  | cons t l ih =>
    rw [List.insertionSort]
    by_cases ht : t.data.key = k
    · rw [filter_orderedInsert_chave_eq k t _ ht, ih, List.filter_cons,
        if_pos (by simp [ht])]
    · rw [filter_orderedInsert_chave_ne k t _ ht, ih, List.filter_cons,
        if_neg (by simp [ht])]

/-! ## Claim C6 -/

/-- C6: the transaction list returned by the extractor is sorted
non-decreasing by parsed date, and the sort is stable: it is the insertion
sort (extensionally, any stable sort) of a pre-sort list `ts0`, transactions
with equal date keys keep exactly their relative order in `ts0`, and — as
soon as the three mandatory fields resolved, i.e. rows were actually
processed — `ts0` is precisely the surviving-row list in original row
order. -/
theorem C6_ordenacao_estavel_por_data (md5hex : String → String)
    (cabecalho_str : String) (linhas_csv : List String) (tipo_conta : String)
    (log : List String) (ts : List Transacao) (bank acct : Option String)
    (h : analisar_transacoes md5hex cabecalho_str linhas_csv tipo_conta =
      (log, .ok (ts, bank, acct))) :
    List.Sorted txLe ts ∧
    ∃ ts0, ts = ordenaTransacoes ts0 ∧ ts.Perm ts0 ∧
      (∀ k : Nat, ts.filter (fun t => t.data.key == k) =
        ts0.filter (fun t => t.data.key == k)) ∧
      ((montaMapa cabecalho_str).data ≠ none →
        (montaMapa cabecalho_str).descricao ≠ none →
        (montaMapa cabecalho_str).valor ≠ none →
        (processRows md5hex (montaMapa cabecalho_str)
          (cabecalho_original cabecalho_str) tipo_conta 0 linhas_csv).2 =
            .ok ts0) := by
  unfold analisar_transacoes at h
  by_cases hd : (montaMapa cabecalho_str).data = none
  · simp only [hd, if_pos] at h
    injection h with h1 h2
    injection h2 with h3
    injection h3 with h4
    have hts : ts = [] := h4.symm ▸ rfl
    subst hts
    exact ⟨List.sorted_nil, [], rfl, List.Perm.refl [], fun k => rfl,
      fun hnd _ _ => absurd hd hnd⟩
  · simp only [hd, if_neg, reduceIte] at h
    by_cases hde : (montaMapa cabecalho_str).descricao = none
    · simp only [hde, if_pos] at h
      injection h with h1 h2
      injection h2 with h3
      injection h3 with h4
      have hts : ts = [] := h4.symm ▸ rfl
      subst hts
      exact ⟨List.sorted_nil, [], rfl, List.Perm.refl [], fun k => rfl,
        fun _ hnde _ => absurd hde hnde⟩
    · simp only [hde, reduceIte] at h
      by_cases hv : (montaMapa cabecalho_str).valor = none
      · simp only [hv, if_pos] at h
        injection h with h1 h2
        injection h2 with h3
        injection h3 with h4
        have hts : ts = [] := h4.symm ▸ rfl
        subst hts
        exact ⟨List.sorted_nil, [], rfl, List.Perm.refl [], fun k => rfl,
          fun _ _ hnv => absurd hv hnv⟩
      · simp only [hv, reduceIte] at h
        rcases hpr : processRows md5hex (montaMapa cabecalho_str)
          (cabecalho_original cabecalho_str) tipo_conta 0 linhas_csv with ⟨plog, pres⟩
        rw [hpr] at h
        cases pres with
        | error e => simp at h
        | ok ts0 =>
          simp only at h
          injection h with h1 h2
          injection h2 with h3
          injection h3 with h4
          have hts : ts = ordenaTransacoes ts0 := h4.symm
          subst hts
          refine ⟨List.sorted_insertionSort txLe ts0, ts0, rfl,
            List.perm_insertionSort txLe ts0, fun k => filter_ordenaTransacoes k ts0,
            fun _ _ _ => ?_⟩
          rfl

/-- Witness for C6 on a concrete three-row file with a duplicated date: the
output is date-sorted and the two same-date rows keep their original
order. -/
theorem C6_ordenacao_estavel_por_data_witness :
    List.Sorted txLe
      [{ data := ⟨2024, 3, 1⟩, descricao := "a", valor := 2,
         id_transacao := some "", fitid := "01/03/2024a2,001" },
       { data := ⟨2024, 3, 2⟩, descricao := "b", valor := 1,
         id_transacao := some "", fitid := "02/03/2024b1,000" },
       { data := ⟨2024, 3, 2⟩, descricao := "c", valor := 3,
         id_transacao := some "", fitid := "02/03/2024c3,002" }] ∧
    ∃ ts0,
      [{ data := ⟨2024, 3, 1⟩, descricao := "a", valor := 2,
         id_transacao := some "", fitid := "01/03/2024a2,001" },
       { data := ⟨2024, 3, 2⟩, descricao := "b", valor := 1,
         id_transacao := some "", fitid := "02/03/2024b1,000" },
       { data := ⟨2024, 3, 2⟩, descricao := "c", valor := 3,
         id_transacao := some "", fitid := "02/03/2024c3,002" }] =
          ordenaTransacoes ts0 ∧
      List.Perm
        [{ data := ⟨2024, 3, 1⟩, descricao := "a", valor := 2,
           id_transacao := some "", fitid := "01/03/2024a2,001" },
         { data := ⟨2024, 3, 2⟩, descricao := "b", valor := 1,
           id_transacao := some "", fitid := "02/03/2024b1,000" },
         { data := ⟨2024, 3, 2⟩, descricao := "c", valor := 3,
           id_transacao := some "", fitid := "02/03/2024c3,002" }] ts0 ∧
      (∀ k : Nat,
        List.filter (fun t => t.data.key == k)
          [{ data := ⟨2024, 3, 1⟩, descricao := "a", valor := 2,
             id_transacao := some "", fitid := "01/03/2024a2,001" },
           { data := ⟨2024, 3, 2⟩, descricao := "b", valor := 1,
             id_transacao := some "", fitid := "02/03/2024b1,000" },
           { data := ⟨2024, 3, 2⟩, descricao := "c", valor := 3,
             id_transacao := some "", fitid := "02/03/2024c3,002" }] =
          ts0.filter (fun t => t.data.key == k)) ∧
      ((montaMapa "Data;Histórico;Valor").data ≠ none →
        (montaMapa "Data;Histórico;Valor").descricao ≠ none →
        (montaMapa "Data;Histórico;Valor").valor ≠ none →
        (processRows (fun s => s) (montaMapa "Data;Histórico;Valor")
          (cabecalho_original "Data;Histórico;Valor") "banco" 0
          ["02/03/2024;b;1,00", "01/03/2024;a;2,00", "02/03/2024;c;3,00"]).2 =
            .ok ts0) :=
  C6_ordenacao_estavel_por_data (fun s => s) "Data;Histórico;Valor"
    ["02/03/2024;b;1,00", "01/03/2024;a;2,00", "02/03/2024;c;3,00"] "banco"
    []
    [{ data := ⟨2024, 3, 1⟩, descricao := "a", valor := 2,
       id_transacao := some "", fitid := "01/03/2024a2,001" },
     { data := ⟨2024, 3, 2⟩, descricao := "b", valor := 1,
       id_transacao := some "", fitid := "02/03/2024b1,000" },
     { data := ⟨2024, 3, 2⟩, descricao := "c", valor := 3,
       id_transacao := some "", fitid := "02/03/2024c3,002" }]
    none none (by rfl)

/-! ## Claim C2: split/join lemmas -/

/-- `splitCh` never returns the empty list of parts. -/
theorem splitCh_ne_nil (sep : Char) (l : List Char) : splitCh sep l ≠ [] := by
  induction l with
  | nil => simp [splitCh]
  | cons c rest ih =>
    rw [splitCh]
    by_cases hc : c = sep
    · simp [hc]
    · simp only [hc, if_neg, reduceIte]
      cases hsp : splitCh sep rest with
      | nil => simp
      | cons r rs => simp

/-- No part produced by `splitCh` contains the separator. -/
theorem sep_not_mem_splitCh (sep : Char) (l : List Char) :
    ∀ p ∈ splitCh sep l, sep ∉ p := by
  induction l with
  | nil =>
    intro p hp
    simp [splitCh] at hp
    simp [hp]
  | cons c rest ih =>
    intro p hp
    rw [splitCh] at hp
    by_cases hc : c = sep
    · simp only [hc, reduceIte, List.mem_cons] at hp
      cases hp with
      | inl h => simp [h]
      | inr h => exact ih p h
    · simp only [hc, reduceIte] at hp
      cases hsp : splitCh sep rest with
      | nil => exact absurd hsp (splitCh_ne_nil sep rest)
      | cons r rs =>
        rw [hsp] at hp
        simp only [List.mem_cons] at hp
        cases hp with
        | inl h =>
          subst h
          intro hmem
          simp only [List.mem_cons] at hmem
          cases hmem with
          | inl h2 => exact hc h2.symm
          | inr h2 => exact ih r (hsp ▸ List.mem_cons_self r rs) h2
        | inr h => exact ih p (hsp ▸ List.mem_cons_of_mem r h)

/-- Splitting a separator-free part gives that part back alone. -/
theorem splitCh_sem_sep (sep : Char) (p : List Char) (h : sep ∉ p) :
    splitCh sep p = [p] := by
  induction p with
  | nil => rfl
  | cons c rest ih =>
    have hc : ¬ c = sep := by
      intro hcc
      exact h (hcc ▸ List.mem_cons_self c rest)
    have hrest : sep ∉ rest := fun hm => h (List.mem_cons_of_mem c hm)
    rw [splitCh]
    simp only [hc, reduceIte]
    rw [ih hrest]

/-- Splitting a separator-free part followed by a separator peels off that
part. -/
theorem splitCh_prefixo (sep : Char) (p rest : List Char) (h : sep ∉ p) :
    splitCh sep (p ++ sep :: rest) = p :: splitCh sep rest := by
  induction p with
  | nil => simp [splitCh]
  | cons c p2 ih =>
    have hc : ¬ c = sep := by
      intro hcc
      exact h (hcc ▸ List.mem_cons_self c p2)
    have hp2 : sep ∉ p2 := fun hm => h (List.mem_cons_of_mem c hm)
    rw [List.cons_append, splitCh]
    simp only [hc, reduceIte]
    rw [ih hp2]

/-- `splitCh` is a left inverse of `intercalate` on nonempty lists of
separator-free parts. -/
theorem splitCh_intercalate (sep : Char) :
    ∀ L : List (List Char), L ≠ [] → (∀ p ∈ L, sep ∉ p) →
      splitCh sep (List.intercalate [sep] L) = L := by
  intro L
  induction L with
  | nil => intro h; exact absurd rfl h
  | cons p T ih =>
    intro _ hfree
    cases T with
    | nil =>
      have h1 : List.intercalate [sep] [p] = p := by
        simp [List.intercalate, List.intersperse]
      rw [h1]
      exact splitCh_sem_sep sep p (hfree p (List.mem_cons_self p []))
    | cons q T2 =>
      have h1 : List.intercalate [sep] (p :: q :: T2) =
          p ++ sep :: List.intercalate [sep] (q :: T2) := by
        simp [List.intercalate, List.intersperse]
      rw [h1, splitCh_prefixo sep p _ (hfree p (List.mem_cons_self p _)),
        ih (by simp) (fun r hr => hfree r (List.mem_cons_of_mem p hr))]

/-- The number of parts is the separator count plus one. -/
theorem splitCh_length (sep : Char) (l : List Char) :
    (splitCh sep l).length = l.count sep + 1 := by
  induction l with
  | nil => simp [splitCh]
  | cons c rest ih =>
    rw [splitCh]
    by_cases hc : c = sep
    · subst hc
      simp [ih, List.count_cons]
    · simp only [hc, reduceIte]
      cases hsp : splitCh sep rest with
      | nil => exact absurd hsp (splitCh_ne_nil sep rest)
      | cons r rs =>
        rw [hsp] at ih
        simp only [List.length_cons] at ih
        simp [List.count_cons, hc, ih]

/-- Rebuilding a string from its character list is the identity. -/
theorem string_mk_data (s : String) : (⟨s.data⟩ : String) = s := rfl

/-- No field produced by `pySplit` contains the separator. -/
theorem pySplit_sem_sep (s : String) (sep : Char) :
    ∀ p ∈ pySplit s sep, sep ∉ p.data := by
  intro p hp
  unfold pySplit at hp
  obtain ⟨l, hl, rfl⟩ := List.mem_map.mp hp
  exact sep_not_mem_splitCh sep s.data l hl

/-- `pySplit` is a left inverse of `pyJoin` on nonempty lists of
separator-free fields. -/
theorem pySplit_pyJoin (sep : Char) (parts : List String) (hne : parts ≠ [])
    (hfree : ∀ p ∈ parts, sep ∉ p.data) :
    pySplit (pyJoin sep parts) sep = parts := by
  unfold pySplit pyJoin
  rw [splitCh_intercalate sep (parts.map String.data)
    (by simpa using hne)
    (by
      intro p hp
      obtain ⟨x, hx, rfl⟩ := List.mem_map.mp hp
      exact hfree x hx)]
  rw [List.map_map]
  have hcomp : (fun l : List Char => ({ data := l } : String)) ∘ String.data = id := by
    funext x
    rfl
  rw [hcomp, List.map_id]

/-- The field count of `pySplit` is the separator count plus one. -/
theorem pySplit_length (s : String) (sep : Char) :
    (pySplit s sep).length = pyCount s sep + 1 := by
  unfold pySplit pyCount
  rw [List.length_map]
  exact splitCh_length sep s.data

/-! ## Claim C2 -/

/-- C2 counterexample: with previous accepted line `a;b;c` and broken line
`x;y` (one `;`, so fewer than two), the claim predicts the broken line's
**entire** content `x;y` joined onto the second-to-last field `b`, giving
`a;b x;y;c` — but the code appends only `x`, the content before the broken
line's first `;` (`linha_limpa.split(';')[0]`), producing `a;b x;c`. -/
theorem C2_contraexemplo :
    (preprocessar_csv_corrigindo_linhas
        (some ["h1;h2;h3", "a;b;c", "x;y"])).2 =
      some ("h1;h2;h3", ["a;b x;c"]) ∧
    (["a;b x;c"] : List String) ≠ ["a;b x;y;c"] :=
  ⟨by rfl, by decide⟩

/-- C2 (amended): a nonblank data line with fewer than two `;` that follows
at least one accepted line is merged as follows: the portion of the broken
line before its first `;` — its entire content when it has no delimiter — is
appended, with a single joining space, to the second-to-last `;`-separated
field of the previous accepted line; all other fields are unchanged, and the
broken line is discarded as a standalone line (the accepted-line count does
not grow). -/
theorem C2_mescla_de_linha_quebrada (acc : List String) (linha prev : String)
    (hacc : acc ≠ []) (hprev : acc.getLastD "" = prev)
    (hne : pyStrip linha ≠ "") (hbroken : pyCount (pyStrip linha) ';' < 2)
    (hwf : 2 ≤ pyCount prev ';') :
    3 ≤ (pySplit prev ';').length ∧
    passo acc linha =
      acc.dropLast ++
        [pyJoin ';' ((pySplit prev ';').set ((pySplit prev ';').length - 2)
          ((pySplit prev ';').getD ((pySplit prev ';').length - 2) "" ++ " " ++
            (pySplit (pyStrip linha) ';').headD ""))] ∧
    (passo acc linha).length = acc.length ∧
    pySplit ((passo acc linha).getLastD "") ';' =
      (pySplit prev ';').set ((pySplit prev ';').length - 2)
        ((pySplit prev ';').getD ((pySplit prev ';').length - 2) "" ++ " " ++
          (pySplit (pyStrip linha) ';').headD "") := by
  have hlen3 : 3 ≤ (pySplit prev ';').length := by
    rw [pySplit_length]
    omega
  have hstep : passo acc linha =
      acc.dropLast ++
        [pyJoin ';' ((pySplit prev ';').set ((pySplit prev ';').length - 2)
          ((pySplit prev ';').getD ((pySplit prev ';').length - 2) "" ++ " " ++
            (pySplit (pyStrip linha) ';').headD ""))] := by
    unfold passo
    cases acc with
    | nil => exact absurd rfl hacc
    | cons a t =>
      simp only [hne, reduceIte, hbroken, if_pos]
      rw [show (a :: t).getLastD "" = prev from hprev]
  have hcount : (passo acc linha).length = acc.length := by
    rw [hstep]
    cases acc with
    | nil => exact absurd rfl hacc
    | cons a t =>
      simp [List.length_dropLast]
  have hfields : pySplit ((passo acc linha).getLastD "") ';' =
      (pySplit prev ';').set ((pySplit prev ';').length - 2)
        ((pySplit prev ';').getD ((pySplit prev ';').length - 2) "" ++ " " ++
          (pySplit (pyStrip linha) ';').headD "") := by
    rw [hstep, List.getLastD_concat]
    apply pySplit_pyJoin
    · intro hcontra
      have hl := congrArg List.length hcontra
      rw [List.length_set] at hl
      simp only [List.length_nil] at hl
      omega
    · intro p hp
      have hmem := List.mem_or_eq_of_mem_set hp
      cases hmem with
      | inl h => exact pySplit_sem_sep prev ';' p h
      | inr h =>
        subst h
        have h1 : ';' ∉ ((pySplit prev ';').getD ((pySplit prev ';').length - 2) "").data := by
          have hlt : (pySplit prev ';').length - 2 < (pySplit prev ';').length := by
            omega
          rw [List.getD_eq_getElem _ "" hlt]
          exact pySplit_sem_sep prev ';' _ (List.getElem_mem hlt)
        have h2 : ';' ∉ ((pySplit (pyStrip linha) ';').headD "").data := by
          cases hsp : pySplit (pyStrip linha) ';' with
          | nil =>
            have := congrArg List.length hsp
            rw [pySplit_length] at this
            simp at this
          | cons r rs =>
            simp only [List.headD_cons]
            exact pySplit_sem_sep (pyStrip linha) ';' r
              (hsp ▸ List.mem_cons_self r rs)
        simp only [String.data_append]
        intro hmem2
        rcases List.mem_append.mp hmem2 with hca | hcb
        · rcases List.mem_append.mp hca with hcc | hcd
          · exact h1 hcc
          · simp at hcd
        · exact h2 hcb
  exact ⟨hlen3, hstep, hcount, hfields⟩

/-- Witness for C2 (amended) at the concrete merge of `x;y` into `a;b;c`. -/
theorem C2_mescla_de_linha_quebrada_witness :
    3 ≤ (pySplit "a;b;c" ';').length ∧
    passo ["a;b;c"] "x;y" =
      (["a;b;c"] : List String).dropLast ++
        [pyJoin ';' ((pySplit "a;b;c" ';').set ((pySplit "a;b;c" ';').length - 2)
          ((pySplit "a;b;c" ';').getD ((pySplit "a;b;c" ';').length - 2) "" ++ " " ++
            (pySplit (pyStrip "x;y") ';').headD ""))] ∧
    (passo ["a;b;c"] "x;y").length = (["a;b;c"] : List String).length ∧
    pySplit ((passo ["a;b;c"] "x;y").getLastD "") ';' =
      (pySplit "a;b;c" ';').set ((pySplit "a;b;c" ';').length - 2)
        ((pySplit "a;b;c" ';').getD ((pySplit "a;b;c" ';').length - 2) "" ++ " " ++
          (pySplit (pyStrip "x;y") ';').headD "") :=
  C2_mescla_de_linha_quebrada ["a;b;c"] "x;y" "a;b;c" (by decide) rfl
    (by decide) (by decide) (by decide)

/-! ## Claim C8: the description-cleaning pipelines -/

/-- Trim leading whitespace (spec side). -/
def trimLeft (l : List Char) : List Char :=
  l.dropWhile pySpace

/-- Trim trailing whitespace (spec side, structurally recursive). -/
def trimRight : List Char → List Char
  | [] => []
  | c :: t =>
    match trimRight t with
    | [] => if pySpace c then [] else [c]
    | r => c :: r

/-- Trim both ends (spec side). -/
def trimEnds (l : List Char) : List Char :=
  trimLeft (trimRight l)

/-- Collapse whitespace runs to single spaces, tracking whether the previous
character already was whitespace (spec side, structurally recursive). -/
def collapseAux : List Char → Bool → List Char
  | [], _ => []
  | c :: rest, prev =>
    if pySpace c then
      if prev then collapseAux rest true else ' ' :: collapseAux rest true
    else c :: collapseAux rest false

/-- Collapse internal whitespace runs to single spaces (spec side). -/
def collapseRuns (l : List Char) : List Char :=
  collapseAux l false

/-- The description cleanup exactly as the claim words it: asterisk
characters *stripped* (removed), whitespace runs collapsed, ends trimmed. -/
def limpezaEspecificada (s : String) : String :=
  ⟨trimEnds (collapseRuns (s.data.filter (fun c => ¬ c = '*')))⟩

/-- The amended description cleanup: asterisk characters *replaced by
spaces*, whitespace runs collapsed, ends trimmed. -/
def limpezaEmendada (s : String) : String :=
  ⟨trimEnds (collapseRuns (s.data.map (fun c => if c = '*' then ' ' else c)))⟩

/-- The words of a list as maximal non-whitespace runs, by direct
`takeWhile`/`dropWhile` recursion (proof-side presentation of
`palavras`). -/
def wordsOf : List Char → List (List Char)
  | [] => []
  | c :: rest =>
    if pySpace c then wordsOf rest
    else ((c :: rest).takeWhile (fun x => !pySpace x)) ::
      wordsOf ((c :: rest).dropWhile (fun x => !pySpace x))
termination_by l => l.length
decreasing_by
  · simp only [List.length_cons]
    omega
  · simp only [List.dropWhile_cons]
    have h := List.Sublist.length_le
      (List.dropWhile_sublist (l := rest) (fun x => !pySpace x))
    simp_all
    omega

/-- `wordsOf` on a leading whitespace character. -/
theorem wordsOf_ws {c : Char} (rest : List Char) (hc : pySpace c) :
    wordsOf (c :: rest) = wordsOf rest := by
  rw [wordsOf]
  simp [hc]

/-- `wordsOf` on a leading non-whitespace character. -/
theorem wordsOf_nonws {c : Char} (rest : List Char) (hc : ¬ pySpace c) :
    wordsOf (c :: rest) =
      ((c :: rest).takeWhile (fun x => !pySpace x)) ::
        wordsOf ((c :: rest).dropWhile (fun x => !pySpace x)) := by
  rw [wordsOf]
  simp [hc]

/-- Characterisation of the accumulator-based `palavrasAux` in terms of
`wordsOf`. -/
theorem palavrasAux_spec : ∀ (l cur : List Char),
    palavrasAux l cur =
      if cur = [] then wordsOf l
      else (cur.reverse ++ l.takeWhile (fun x => !pySpace x)) ::
        wordsOf (l.dropWhile (fun x => !pySpace x)) := by
  intro l
  induction l with
  | nil =>
    intro cur
    cases cur with
    | nil => simp [palavrasAux, wordsOf]
    | cons c cur2 =>
      simp [palavrasAux, wordsOf]
  | cons c rest ih =>
    intro cur
    by_cases hc : pySpace c
    · cases cur with
      | nil =>
        simp only [palavrasAux, hc, reduceIte, if_pos]
        rw [ih [], wordsOf_ws rest hc]
        rfl
      | cons c2 cur2 =>
        simp only [palavrasAux, hc, reduceIte]
        rw [ih []]
        have h1 : (c :: rest).takeWhile (fun x => !pySpace x) = [] := by
          simp [List.takeWhile_cons, hc]
        have h2 : (c :: rest).dropWhile (fun x => !pySpace x) = c :: rest := by
          simp [List.dropWhile_cons, hc]
        rw [if_neg (by simp), h1, h2, wordsOf_ws rest hc]
        simp
    · simp only [palavrasAux, hc, reduceIte]
      rw [ih (c :: cur)]
      have h1 : (c :: rest).takeWhile (fun x => !pySpace x) =
          c :: rest.takeWhile (fun x => !pySpace x) := by
        simp [List.takeWhile_cons, hc]
      have h2 : (c :: rest).dropWhile (fun x => !pySpace x) =
          rest.dropWhile (fun x => !pySpace x) := by
        simp [List.dropWhile_cons, hc]
      cases cur with
      | nil =>
        rw [if_neg (by simp), if_pos rfl, wordsOf_nonws rest hc, h1, h2]
        simp
      | cons c2 cur2 =>
        rw [if_neg (by simp), if_neg (by simp), h1, h2]
        simp

/-- `palavras` agrees with `wordsOf`. -/
theorem palavras_eq_wordsOf (l : List Char) : palavras l = wordsOf l := by
  unfold palavras
  rw [palavrasAux_spec l []]
  rfl

/-- `trimRight` past an all-non-whitespace prefix. -/
theorem trimRight_append_nonws : ∀ (w z : List Char),
    (∀ c ∈ w, pySpace c = false) → trimRight (w ++ z) = w ++ trimRight z := by
  intro w
  induction w with
  | nil => intro z _; rfl
  | cons c w2 ih =>
    intro z hw
    have hc : pySpace c = false := hw c (List.mem_cons_self c w2)
    have hw2 : ∀ x ∈ w2, pySpace x = false :=
      fun x hx => hw x (List.mem_cons_of_mem c hx)
    rw [List.cons_append, trimRight, ih z hw2]
    cases hz : w2 ++ trimRight z with
    | nil =>
      have h2 : w2 = [] := by
        cases w2 with
        | nil => rfl
        | cons a b => simp at hz
      subst h2
      simp only [List.nil_append] at hz
      simp [hc, hz]
    | cons a b =>
      simp [hz]

/-- `trimEnds` after a leading non-whitespace character. -/
theorem trimEnds_cons_nonws {c : Char} (z : List Char) (hc : ¬ pySpace c) :
    trimEnds (c :: z) = c :: trimRight z := by
  unfold trimEnds
  rw [trimRight]
  cases hz : trimRight z with
  | nil =>
    simp only [hc, if_neg, reduceIte]
    unfold trimLeft
    simp [List.dropWhile_cons, hc]
  | cons a b =>
    unfold trimLeft
    simp [List.dropWhile_cons, hc]

/-- `trimEnds` absorbs a leading space. -/
theorem trimEnds_cons_space (z : List Char) : trimEnds (' ' :: z) = trimEnds z := by
  unfold trimEnds
  rw [trimRight]
  cases hz : trimRight z with
  | nil => rfl
  | cons a b =>
    unfold trimLeft
    rw [List.dropWhile_cons]
    simp [pySpace]

/-- After a whitespace run was entered, collapsing proceeds from the first
non-whitespace character. -/
theorem collapseAux_true (l : List Char) :
    collapseAux l true = collapseAux (l.dropWhile pySpace) false := by
  induction l with
  | nil => rfl
  | cons c rest ih =>
    by_cases hc : pySpace c
    · rw [collapseAux]
      simp only [hc, reduceIte, List.dropWhile_cons, ih]
    · rw [collapseAux, List.dropWhile_cons]
      simp [hc, collapseAux]

/-- `collapseRuns` on a leading whitespace character. -/
theorem collapseRuns_cons_ws {c : Char} (rest : List Char) (hc : pySpace c) :
    collapseRuns (c :: rest) = ' ' :: collapseRuns (rest.dropWhile pySpace) := by
  unfold collapseRuns
  rw [collapseAux]
  simp [hc, collapseAux_true]

/-- `collapseRuns` on a leading non-whitespace character. -/
theorem collapseRuns_cons_nonws {c : Char} (rest : List Char) (hc : ¬ pySpace c) :
    collapseRuns (c :: rest) = c :: collapseRuns rest := by
  unfold collapseRuns
  rw [collapseAux]
  simp [hc]

/-- `trimEnds ∘ collapseRuns` ignores leading whitespace. -/
theorem trimEnds_collapse_dropWhile (x : List Char) :
    trimEnds (collapseRuns (x.dropWhile pySpace)) = trimEnds (collapseRuns x) := by
  cases x with
  | nil => rfl
  | cons d xr =>
    by_cases hd : pySpace d
    · rw [List.dropWhile_cons]
      simp only [hd, reduceIte]
      rw [collapseRuns_cons_ws xr hd, trimEnds_cons_space]
    · rw [List.dropWhile_cons]
      simp [hd]

/-- The head surviving `dropWhile` fails the predicate. -/
theorem dropWhile_head_false {p : Char → Bool} :
    ∀ (l : List Char) {d : Char} {dr : List Char},
      l.dropWhile p = d :: dr → p d = false := by
  intro l
  induction l with
  | nil => intro d dr h; simp at h
  | cons c rest ih =>
    intro d dr h
    rw [List.dropWhile_cons] at h
    by_cases hc : p c
    · simp only [hc, reduceIte] at h
      exact ih h
    · simp only [hc, reduceIte] at h
      injection h with h1 _
      subst h1
      simp [hc]

/-- `collapseRuns` past an all-non-whitespace prefix. -/
theorem collapseRuns_append_nonws : ∀ (w z : List Char),
    (∀ c ∈ w, pySpace c = false) → collapseRuns (w ++ z) = w ++ collapseRuns z := by
  intro w
  induction w with
  | nil => intro z _; rfl
  | cons c w2 ih =>
    intro z hw
    have hc : pySpace c = false := hw c (List.mem_cons_self c w2)
    rw [List.cons_append, collapseRuns_cons_nonws _ (by simp [hc]),
      ih z (fun x hx => hw x (List.mem_cons_of_mem c hx)), List.cons_append]

/-- `trimEnds` past a nonempty all-non-whitespace prefix keeps the prefix and
right-trims the rest. -/
theorem trimEnds_append_nonws : ∀ (w z : List Char), w ≠ [] →
    (∀ c ∈ w, pySpace c = false) → trimEnds (w ++ z) = w ++ trimRight z := by
  intro w
  induction w with
  | nil => intro z h; exact absurd rfl h
  | cons c w2 ih =>
    intro z _ hw
    have hc : pySpace c = false := hw c (List.mem_cons_self c w2)
    have hw2 : ∀ x ∈ w2, pySpace x = false :=
      fun x hx => hw x (List.mem_cons_of_mem c hx)
    cases w2 with
    | nil =>
      rw [List.cons_append, List.nil_append,
        trimEnds_cons_nonws z (by simp [hc])]
      rfl
    | cons c2 w3 =>
      rw [List.cons_append, trimEnds_cons_nonws _ (by simp [hc]),
        trimRight_append_nonws (c2 :: w3) z hw2, List.cons_append]
      simp

/-- `collapseAux` in whitespace mode annihilates an all-whitespace rest. -/
theorem collapseAux_true_allws : ∀ (l : List Char),
    (∀ c ∈ l, pySpace c = true) → collapseAux l true = [] := by
  intro l
  induction l with
  | nil => intro _; rfl
  | cons c rest ih =>
    intro h
    rw [collapseAux]
    simp only [h c (List.mem_cons_self c rest), reduceIte]
    exact ih (fun x hx => h x (List.mem_cons_of_mem c hx))

/-- `collapseRuns` of an all-whitespace list is empty or a single space. -/
theorem collapseRuns_allws (l : List Char) (h : ∀ c ∈ l, pySpace c = true) :
    collapseRuns l = [] ∨ collapseRuns l = [' '] := by
  cases l with
  | nil => exact Or.inl rfl
  | cons c rest =>
    right
    unfold collapseRuns
    rw [collapseAux,
      collapseAux_true_allws rest (fun x hx => h x (List.mem_cons_of_mem c hx))]
    simp [h c (List.mem_cons_self c rest)]

/-- A list with no words is all-whitespace. -/
theorem wordsOf_nil_allws : ∀ (l : List Char), wordsOf l = [] →
    ∀ c ∈ l, pySpace c = true := by
  intro l
  induction l with
  | nil => intro _ c hc; simp at hc
  | cons c rest ih =>
    intro h x hx
    by_cases hc : pySpace c
    · rw [wordsOf_ws rest hc] at h
      rcases List.mem_cons.mp hx with h1 | h1
      · subst h1; exact hc
      · exact ih h x h1
    · rw [wordsOf_nonws rest hc] at h
      simp at h

/-- `wordsOf` ignores leading whitespace. -/
theorem wordsOf_dropWhile_ws : ∀ (l : List Char),
    wordsOf (l.dropWhile pySpace) = wordsOf l := by
  intro l
  induction l with
  | nil => rfl
  | cons c rest ih =>
    rw [List.dropWhile_cons]
    by_cases hc : pySpace c
    · simp only [hc, reduceIte]
      rw [ih, wordsOf_ws rest hc]
    · simp [hc]

/-- `trimRight` on a whitespace head, as a function of the tail's trim. -/
theorem trimRight_cons_ws {c : Char} (z : List Char) (hc : pySpace c) :
    trimRight (c :: z) =
      (match trimRight z with
       | [] => []
       | r => c :: r) := by
  rw [trimRight]
  cases trimRight z with
  | nil => simp [hc]
  | cons a b => rfl

/-- `trimRight` on a non-whitespace head never vanishes and keeps the
head. -/
theorem trimRight_cons_nonws {c : Char} (z : List Char) (hc : ¬ pySpace c) :
    trimRight (c :: z) =
      (match trimRight z with
       | [] => [c]
       | r => c :: r) := by
  rw [trimRight]
  cases trimRight z with
  | nil => simp [hc]
  | cons a b => rfl

/-- `trimLeft` is the identity on a non-whitespace head. -/
theorem trimLeft_cons_nonws {c : Char} (z : List Char) (hc : ¬ pySpace c) :
    trimLeft (c :: z) = c :: z := by
  unfold trimLeft
  simp [List.dropWhile_cons, hc]

/-- Joining the whitespace-separated words with single spaces is the same as
collapsing whitespace runs and trimming both ends. -/
theorem joinW_wordsOf : ∀ (n : Nat) (l : List Char), l.length ≤ n →
    List.intercalate [' '] (wordsOf l) = trimEnds (collapseRuns l) := by
  intro n
  induction n with
  | zero =>
    intro l h
    have h0 : l = [] := List.eq_nil_of_length_eq_zero (Nat.le_zero.mp h)
    subst h0
    rw [show wordsOf [] = [] from by rw [wordsOf]]
    rfl
  | succ n ih =>
    intro l hl
    cases l with
    | nil =>
      rw [show wordsOf [] = [] from by rw [wordsOf]]
      rfl
    | cons c rest =>
      have hrest_len : rest.length ≤ n := by
        simpa using hl
      by_cases hc : pySpace c
      · rw [wordsOf_ws rest hc, collapseRuns_cons_ws rest hc, trimEnds_cons_space,
          trimEnds_collapse_dropWhile rest]
        exact ih rest hrest_len
      · obtain ⟨w, hw⟩ : ∃ w, (c :: rest).takeWhile (fun x => !pySpace x) = w :=
          ⟨_, rfl⟩
        obtain ⟨r, hr⟩ : ∃ r, (c :: rest).dropWhile (fun x => !pySpace x) = r :=
          ⟨_, rfl⟩
        rw [wordsOf_nonws rest hc, hw, hr]
        have hw_nonws : ∀ x ∈ w, pySpace x = false := by
          intro x hx
          rw [← hw] at hx
          simpa using List.mem_takeWhile_imp hx
        have hw_ne : w ≠ [] := by
          rw [← hw]
          simp [List.takeWhile_cons, hc]
        have hsplit : w ++ r = c :: rest := by
          rw [← hw, ← hr]
          exact List.takeWhile_append_dropWhile ..
        have hr_len : r.length ≤ rest.length := by
          rw [← hr]
          rw [List.dropWhile_cons]
          simp only [hc]
          simp only [Bool.not_false, reduceIte]
          exact List.Sublist.length_le (List.dropWhile_sublist _)
        have hRHS : trimEnds (collapseRuns (c :: rest)) =
            w ++ trimRight (collapseRuns r) := by
          rw [← hsplit, collapseRuns_append_nonws w r hw_nonws,
            trimEnds_append_nonws w _ hw_ne hw_nonws]
        rw [hRHS]
        cases hwr : wordsOf r with
        | nil =>
          have hrall : ∀ x ∈ r, pySpace x = true := wordsOf_nil_allws r hwr
          have htr0 : trimRight (collapseRuns r) = [] := by
            rcases collapseRuns_allws r hrall with h1 | h1 <;> rw [h1] <;> rfl
          rw [htr0]
          simp [List.intercalate, List.intersperse]
        | cons w2 ws2 =>
          cases hrc : r with
          | nil =>
            rw [hrc] at hwr
            rw [show wordsOf [] = [] from by rw [wordsOf]] at hwr
            exact absurd hwr (by simp)
          | cons d r2 =>
            have hdws : pySpace d = true := by
              have hd := dropWhile_head_false (c :: rest) (hr.trans hrc)
              simpa using hd
            have hcr : collapseRuns r = ' ' :: collapseRuns (r2.dropWhile pySpace) := by
              rw [hrc]
              exact collapseRuns_cons_ws r2 hdws
            have hwru : wordsOf r = wordsOf (r2.dropWhile pySpace) := by
              rw [hrc, wordsOf_ws r2 hdws, wordsOf_dropWhile_ws r2]
            have hu_words : wordsOf (r2.dropWhile pySpace) = w2 :: ws2 :=
              hwru.symm.trans hwr
            have hu_ne : r2.dropWhile pySpace ≠ [] := by
              intro h0
              rw [h0, show wordsOf [] = [] from by rw [wordsOf]] at hu_words
              exact absurd hu_words (by simp)
            obtain ⟨e, e2, hue⟩ : ∃ e e2, r2.dropWhile pySpace = e :: e2 := by
              cases hx : r2.dropWhile pySpace with
              | nil => exact absurd hx hu_ne
              | cons a b => exact ⟨a, b, rfl⟩
            have he : pySpace e = false := dropWhile_head_false r2 hue
            have hu_len : (r2.dropWhile pySpace).length ≤ n := by
              have l1 : (r2.dropWhile pySpace).length ≤ r2.length :=
                List.Sublist.length_le (List.dropWhile_sublist _)
              have l2 : r.length = r2.length + 1 := by
                rw [hrc]
                rfl
              omega
            have hIH : List.intercalate [' '] (wordsOf (r2.dropWhile pySpace)) =
                trimEnds (collapseRuns (r2.dropWhile pySpace)) :=
              ih (r2.dropWhile pySpace) hu_len
            have hcu : collapseRuns (r2.dropWhile pySpace) =
                e :: collapseRuns e2 := by
              rw [hue]
              exact collapseRuns_cons_nonws e2 (by simp [he])
            have hTEu : trimEnds (collapseRuns (r2.dropWhile pySpace)) =
                trimRight (collapseRuns (r2.dropWhile pySpace)) := by
              unfold trimEnds
              rw [hcu, trimRight_cons_nonws (collapseRuns e2) (by simp [he])]
              cases trimRight (collapseRuns e2) with
              | nil => exact trimLeft_cons_nonws [] (by simp [he])
              | cons a b => exact trimLeft_cons_nonws (a :: b) (by simp [he])
            have hTRu_ne : trimRight (collapseRuns (r2.dropWhile pySpace)) ≠ [] := by
              rw [hcu, trimRight_cons_nonws (collapseRuns e2) (by simp [he])]
              cases trimRight (collapseRuns e2) <;> simp
            have h3 : trimRight (collapseRuns r) =
                ' ' :: trimRight (collapseRuns (r2.dropWhile pySpace)) := by
              rw [hcr, trimRight_cons_ws (collapseRuns (r2.dropWhile pySpace)) (by decide)]
              cases h4 : trimRight (collapseRuns (r2.dropWhile pySpace)) with
              | nil => exact absurd h4 hTRu_ne
              | cons a b => rfl
            have hinter : List.intercalate [' '] (w :: w2 :: ws2) =
                w ++ ' ' :: List.intercalate [' '] (w2 :: ws2) := by
              simp [List.intercalate, List.intersperse]
            have h5 : List.intercalate [' '] (w2 :: ws2) =
                trimRight (collapseRuns (r2.dropWhile pySpace)) := by
              rw [← hu_words, hIH, hTEu]
            rw [← hrc, hinter, h3, h5]

/-- Every list is an all-whitespace prefix, its stripped core, and an
all-whitespace suffix. -/
theorem strip_decomposicao (l : List Char) :
    ∃ pre suf, (∀ c ∈ pre, pySpace c = true) ∧ (∀ c ∈ suf, pySpace c = true) ∧
      l = pre ++ pyStripList l ++ suf := by
  refine ⟨l.takeWhile pySpace, ((l.dropWhile pySpace).reverse.takeWhile pySpace).reverse,
    ?_, ?_, ?_⟩
  · intro c hc
    exact List.mem_takeWhile_imp hc
  · intro c hc
    rw [List.mem_reverse] at hc
    exact List.mem_takeWhile_imp hc
  · unfold pyStripList
    conv_lhs => rw [← List.takeWhile_append_dropWhile (p := pySpace) (l := l)]
    rw [List.append_assoc]
    congr 1
    conv_lhs => rw [← List.reverse_reverse (l.dropWhile pySpace),
      ← List.takeWhile_append_dropWhile (p := pySpace) (l := (l.dropWhile pySpace).reverse)]
    rw [List.reverse_append]

/-- `trimEnds ∘ collapseRuns` ignores an all-whitespace prefix. -/
theorem trimEnds_collapse_prefixo_ws : ∀ (p x : List Char),
    (∀ c ∈ p, pySpace c = true) →
    trimEnds (collapseRuns (p ++ x)) = trimEnds (collapseRuns x) := by
  intro p
  induction p with
  | nil => intro x _; rfl
  | cons c p2 ih =>
    intro x hp
    have hc : pySpace c = true := hp c (List.mem_cons_self c p2)
    rw [List.cons_append, collapseRuns_cons_ws _ hc, trimEnds_cons_space,
      trimEnds_collapse_dropWhile (p2 ++ x)]
    exact ih x (fun y hy => hp y (List.mem_cons_of_mem c hy))

/-- Dropping whitespace from an all-whitespace list leaves nothing. -/
theorem dropWhile_allws (s : List Char) (h : ∀ c ∈ s, pySpace c = true) :
    s.dropWhile pySpace = [] := by
  induction s with
  | nil => rfl
  | cons c rest ih =>
    rw [List.dropWhile_cons]
    simp only [h c (List.mem_cons_self c rest), reduceIte]
    exact ih (fun x hx => h x (List.mem_cons_of_mem c hx))

/-- `trimRight ∘ collapseRuns` ignores an all-whitespace suffix. -/
theorem trimRight_collapse_sufixo_ws : ∀ (n : Nat) (x s : List Char),
    x.length ≤ n → (∀ c ∈ s, pySpace c = true) →
    trimRight (collapseRuns (x ++ s)) = trimRight (collapseRuns x) := by
  intro n
  induction n with
  | zero =>
    intro x s hx hs
    have h0 : x = [] := List.eq_nil_of_length_eq_zero (Nat.le_zero.mp hx)
    subst h0
    rw [List.nil_append]
    rcases collapseRuns_allws s hs with h1 | h1 <;> rw [h1] <;> rfl
  | succ n ih =>
    intro x s hx hs
    cases x with
    | nil =>
      rw [List.nil_append]
      rcases collapseRuns_allws s hs with h1 | h1 <;> rw [h1] <;> rfl
    | cons c xr =>
      have hxr_len : xr.length ≤ n := by simpa using hx
      by_cases hc : pySpace c
      · rw [List.cons_append, collapseRuns_cons_ws _ hc, collapseRuns_cons_ws _ hc]
        rw [List.dropWhile_append]
        cases hemp : (xr.dropWhile pySpace).isEmpty
        · simp only [hemp, Bool.false_eq_true, reduceIte]
          have hlen2 : (xr.dropWhile pySpace).length ≤ n := by
            have := List.Sublist.length_le (List.dropWhile_sublist (l := xr) pySpace)
            omega
          have hin := ih (xr.dropWhile pySpace) s hlen2 hs
          rw [trimRight_cons_ws _ (by decide), trimRight_cons_ws _ (by decide), hin]
        · simp only [hemp, reduceIte]
          rw [dropWhile_allws s hs]
          have h0 : xr.dropWhile pySpace = [] := List.isEmpty_iff.mp hemp
          rw [h0]
      · rw [List.cons_append, collapseRuns_cons_nonws _ hc, collapseRuns_cons_nonws _ hc,
          trimRight_cons_nonws _ hc, trimRight_cons_nonws _ hc,
          ih xr s hxr_len hs]

/-- `trimEnds ∘ collapseRuns` ignores an all-whitespace suffix. -/
theorem trimEnds_collapse_sufixo_ws (x s : List Char)
    (hs : ∀ c ∈ s, pySpace c = true) :
    trimEnds (collapseRuns (x ++ s)) = trimEnds (collapseRuns x) := by
  unfold trimEnds
  rw [trimRight_collapse_sufixo_ws x.length x s (Nat.le_refl _) hs]

/-- Replacing asterisks by spaces fixes an all-whitespace list pointwise. -/
theorem mapStar_allws (p : List Char) (h : ∀ c ∈ p, pySpace c = true) :
    p.map (fun c => if c = '*' then ' ' else c) = p := by
  have h2 : ∀ c ∈ p, (fun c => if c = '*' then ' ' else c) c = id c := by
    intro c hc
    have hws := h c hc
    have hne : ¬ c = '*' := by
      intro h3
      subst h3
      simp [pySpace] at hws
    simp [hne]
  rw [List.map_congr_left h2, List.map_id]

/-- The extractor's description cleanup — strip the raw cell, replace `*` by
spaces, split into words, rejoin with single spaces — equals the amended
specification pipeline applied to the raw cell: replace `*` by spaces,
collapse whitespace runs, trim both ends. -/
theorem limparDescricao_eq_emendada (s : String) :
    limparDescricao (pyStrip s) = limpezaEmendada s := by
  apply string_data_inj
  show limparDescricaoList (pyStripList s.data) =
    trimEnds (collapseRuns (s.data.map (fun c => if c = '*' then ' ' else c)))
  unfold limparDescricaoList
  rw [palavras_eq_wordsOf, joinW_wordsOf (pyStripList s.data).length _ (by simp)]
  obtain ⟨pre, suf, hpre, hsuf, hdec⟩ := strip_decomposicao s.data
  conv_rhs => rw [hdec]
  rw [List.map_append, List.map_append, mapStar_allws pre hpre,
    mapStar_allws suf hsuf, List.append_assoc,
    trimEnds_collapse_prefixo_ws pre _ hpre,
    trimEnds_collapse_sufixo_ws _ suf hsuf]

/-! ## Claim C8 -/

/-- C8 counterexample: for the raw description `Compra*Loja` the extractor
stores `Compra Loja` — the asterisk acts as a separator because the code
*replaces* it with a space before collapsing — whereas the claim's pipeline
(asterisk characters *stripped*, runs collapsed, ends trimmed) yields
`CompraLoja`.  The two differ, so the claim as stated is false. -/
theorem C8_contraexemplo :
    (parseRow (fun s => s) (montaMapa "Data;Histórico;Valor")
        (cabecalho_original "Data;Histórico;Valor")
        "01/03/2024;Compra*Loja;150,00" 0 "banco").map (fun t => t.descricao) =
      .ok "Compra Loja" ∧
    limpezaEspecificada "Compra*Loja" = "CompraLoja" ∧
    ("Compra Loja" : String) ≠ "CompraLoja" :=
  ⟨by rfl, by rfl, by decide⟩

/-- C8 (amended): for every successfully parsed row, the stored description
is the raw description with asterisk characters **replaced by spaces**,
internal whitespace runs collapsed to single spaces, and both ends
trimmed. -/
theorem C8_descricao_normalizada (md5hex : String → String) (mapa : MapaFinal)
    (cab : List String) (linha : String) (i : Nat) (tipo_conta : String)
    (t : Transacao) (kdesc descRaw : String)
    (hde : mapa.descricao = some kdesc)
    (hdec : rowGet (dictReaderRow cab linha) kdesc = some (some descRaw))
    (hok : parseRow md5hex mapa cab linha i tipo_conta = .ok t) :
    t.descricao = limpezaEmendada descRaw := by
  obtain ⟨kd1, kdesc1, kv1, dR1, deR1, vR1, dObj1, q1, e1, e2, e3, e4, e5, e6,
    e7, e8, e9, e10, e11, e12⟩ := parseRow_ok_inversao hok
  injection hde.symm.trans e3 with h3
  subst h3
  injection hdec.symm.trans e4 with h4
  injection h4 with h4
  subst h4
  rw [e10, limparDescricao_eq_emendada]

/-- Witness for C8 (amended) on the `Compra*Loja` row. -/
theorem C8_descricao_normalizada_witness :
    ("Compra Loja" : String) = limpezaEmendada "Compra*Loja" :=
  C8_descricao_normalizada (fun s => s) (montaMapa "Data;Histórico;Valor")
    (cabecalho_original "Data;Histórico;Valor") "01/03/2024;Compra*Loja;150,00"
    0 "banco"
    { data := ⟨2024, 3, 1⟩, descricao := "Compra Loja", valor := 150,
      id_transacao := some "", fitid := "01/03/2024Compra*Loja150,000" }
    "Histórico" "Compra*Loja" rfl rfl rfl
